import Mathlib

/-! # Tic-tac-toe with exhaustive minimax: a shallow embedding of `tictactoe.cpp`

The C++ class `TicTacToe` owns a 3x3 board of characters and a turn flag.
Its member functions are translated one by one: `const` members become pure
functions of the state, mutating members return the new state.  Reads and
writes at indices that the C++ code passes unchecked to `std::array::operator[]`
are undefined outside the grid; they are modelled as `none`.  The recursive
search carries a fuel argument; `none` is also what it returns when the fuel
is used up.
-/

/-- The three characters a board cell can hold: `EMPTY_CELL = '-'`,
`X_CHAR = 'X'` and `O_CHAR = 'O'`. -/
inductive Cell where
  | EMPTY_CELL
  | X_CHAR
  | O_CHAR
  deriving DecidableEq, Repr

/-- Model of `std::array<T, 3>`: three slots. -/
structure Array3 (α : Type) where
  a0 : α
  a1 : α
  a2 : α
  deriving DecidableEq, Repr

namespace Array3

/-- Model of `operator[]` at an index known to be below 3. -/
def get {α : Type} (a : Array3 α) (i : Fin 3) : α :=
  match i with
  | ⟨0, _⟩ => a.a0
  | ⟨1, _⟩ => a.a1
  | ⟨_ + 2, _⟩ => a.a2

/-- Model of the assignment `a[i] = v` at an index known to be below 3. -/
def set {α : Type} (a : Array3 α) (i : Fin 3) (v : α) : Array3 α :=
  match i with
  | ⟨0, _⟩ => ⟨v, a.a1, a.a2⟩
  | ⟨1, _⟩ => ⟨a.a0, v, a.a2⟩
  | ⟨_ + 2, _⟩ => ⟨a.a0, a.a1, v⟩

end Array3

/-- The type of `m_board`: `std::array<std::array<char, 3>, 3>`. -/
abbrev Board := Array3 (Array3 Cell)

namespace Board

/-- The read `m_board[row][col]`. -/
def get (b : Board) (row col : Fin 3) : Cell :=
  (Array3.get b row).get col

/-- The write `m_board[row][col] = v`. -/
def set (b : Board) (row col : Fin 3) (v : Cell) : Board :=
  Array3.set b row ((Array3.get b row).set col v)

end Board

/-- The values of the loop variable of `for (i = 0; i < 3; ++i)`, in order. -/
def indices : List (Fin 3) := [0, 1, 2]

/-- The enum `TicTacToe::State`. -/
inductive State where
  | PLAYING
  | X_WINS
  | O_WINS
  | DRAW
  deriving DecidableEq, Repr

/-- The data members of `struct TicTacToe`. -/
structure TicTacToe where
  m_x_turn : Bool
  m_board : Board
  deriving DecidableEq, Repr

/-- The value `std::numeric_limits<int>::min()` for a 32-bit `int`. -/
def INT_MIN : Int := -2147483648

/-- The value `std::numeric_limits<int>::max()` for a 32-bit `int`. -/
def INT_MAX : Int := 2147483647

namespace TicTacToe

open Cell State

/-- The state built by the constructor `TicTacToe::TicTacToe()`: every cell is
filled with `EMPTY_CELL`, and `m_x_turn` has its default `true`. -/
def new : TicTacToe :=
  ⟨true, ⟨⟨EMPTY_CELL, EMPTY_CELL, EMPTY_CELL⟩, ⟨EMPTY_CELL, EMPTY_CELL, EMPTY_CELL⟩,
    ⟨EMPTY_CELL, EMPTY_CELL, EMPTY_CELL⟩⟩⟩

/-- Model of `TicTacToe::is_valid_move`.  The conjunction short-circuits: the
cell is read only under both bounds tests. -/
def is_valid_move (s : TicTacToe) (row col : Nat) : Bool :=
  if hr : row < 3 then
    if hc : col < 3 then
      decide (s.m_board.get ⟨row, hr⟩ ⟨col, hc⟩ = EMPTY_CELL)
    else false
  else false

/-- The first loop of `get_state`: scan the rows in the given order and
return from the function at the first row holding three equal non-empty marks. -/
def get_state_rows (s : TicTacToe) : List (Fin 3) → Option State
  | [] => none
  | row :: rest =>
    if s.m_board.get row 0 ≠ EMPTY_CELL
        ∧ s.m_board.get row 0 = s.m_board.get row 1
        ∧ s.m_board.get row 1 = s.m_board.get row 2 then
      some (if s.m_board.get row 0 = X_CHAR then X_WINS else O_WINS)
    else get_state_rows s rest

/-- The second loop of `get_state`: the same scan over the columns. -/
def get_state_cols (s : TicTacToe) : List (Fin 3) → Option State
  | [] => none
  | col :: rest =>
    if s.m_board.get 0 col ≠ EMPTY_CELL
        ∧ s.m_board.get 0 col = s.m_board.get 1 col
        ∧ s.m_board.get 1 col = s.m_board.get 2 col then
      some (if s.m_board.get 0 col = X_CHAR then X_WINS else O_WINS)
    else get_state_cols s rest

/-- Model of `TicTacToe::any_space_left`: the nested scan returns `true` at
the first empty cell. -/
def any_space_left (s : TicTacToe) : Bool :=
  indices.any fun row => indices.any fun col =>
    decide (s.m_board.get row col = EMPTY_CELL)

/-- Model of `TicTacToe::get_state`: rows, columns, main diagonal,
anti-diagonal, then the fullness test. -/
def get_state (s : TicTacToe) : State :=
  match get_state_rows s indices with
  | some st => st
  | none =>
    match get_state_cols s indices with
    | some st => st
    | none =>
      if s.m_board.get 0 0 ≠ EMPTY_CELL
          ∧ s.m_board.get 0 0 = s.m_board.get 1 1
          ∧ s.m_board.get 1 1 = s.m_board.get 2 2 then
        if s.m_board.get 0 0 = X_CHAR then X_WINS else O_WINS
      else if s.m_board.get 0 2 ≠ EMPTY_CELL
          ∧ s.m_board.get 0 2 = s.m_board.get 1 1
          ∧ s.m_board.get 1 1 = s.m_board.get 2 0 then
        if s.m_board.get 0 2 = X_CHAR then X_WINS else O_WINS
      else if !any_space_left s then DRAW
      else PLAYING

/-- Model of `TicTacToe::make_move`.  The indices go unchecked into
`operator[]`, so the call is only defined inside the grid. -/
def make_move (s : TicTacToe) (row col : Nat) : Option TicTacToe :=
  if hr : row < 3 then
    if hc : col < 3 then
      some ⟨!s.m_x_turn,
        s.m_board.set ⟨row, hr⟩ ⟨col, hc⟩ (if s.m_x_turn then X_CHAR else O_CHAR)⟩
    else none
  else none

/-- The assignment `m_board[row][col] = v` made inside a member function at
loop indices: only that cell of the object changes. -/
def set_cell (s : TicTacToe) (row col : Fin 3) (v : Cell) : TicTacToe :=
  ⟨s.m_x_turn, s.m_board.set row col v⟩

/-- Model of `TicTacToe::evaluate_board`. -/
def evaluate_board (s : TicTacToe) : Int :=
  match get_state s with
  | X_WINS => 1
  | O_WINS => -1
  | _ => 0

/-- The body of the inner loop of `minimax` at cell `(row, col)`, given the
recursive call `rec` : place the mark, recurse, restore the cell, update the
running best. -/
def minimax_cell (rec : TicTacToe → Option (Int × TicTacToe)) (maximizing : Bool)
    (row col : Fin 3) (acc : Int × TicTacToe) : Option (Int × TicTacToe) :=
  if acc.2.m_board.get row col = EMPTY_CELL then
    match rec (acc.2.set_cell row col (if maximizing then X_CHAR else O_CHAR)) with
    | none => none
    | some (score, s2) =>
      some (if maximizing then max acc.1 score else min acc.1 score,
        s2.set_cell row col EMPTY_CELL)
  else some acc

/-- Model of `TicTacToe::minimax`.  The result pairs the returned score with
the state the object is left in.  The first argument bounds the recursion
depth; `none` means it was used up. -/
def minimax : Nat → Bool → TicTacToe → Option (Int × TicTacToe)
  | 0, _, _ => none
  | fuel + 1, maximizing, s =>
    if get_state s ≠ PLAYING then some (evaluate_board s, s)
    else
      indices.foldlM
        (fun acc row => indices.foldlM
          (fun acc col => minimax_cell (minimax fuel (!maximizing)) maximizing row col acc)
          acc)
        (if maximizing then INT_MIN else INT_MAX, s)

/-- The body of the inner loop of `get_best_move` at cell `(_row, _col)`.  The
accumulator holds `best_score`, the output variables `row` and `col`, and the
object state. -/
def get_best_move_cell (fuel : Nat) (x_turn : Bool) (_row _col : Fin 3)
    (acc : Int × Nat × Nat × TicTacToe) : Option (Int × Nat × Nat × TicTacToe) :=
  if acc.2.2.2.m_board.get _row _col = EMPTY_CELL then
    match minimax fuel (!x_turn)
        (acc.2.2.2.set_cell _row _col (if x_turn then X_CHAR else O_CHAR)) with
    | none => none
    | some (score, s2) =>
      let s3 : TicTacToe := s2.set_cell _row _col EMPTY_CELL
      let prev_best_score := acc.1
      let best_score := if x_turn then max acc.1 score else min acc.1 score
      if prev_best_score ≠ best_score then
        some (best_score, _row.val, _col.val, s3)
      else
        some (best_score, acc.2.1, acc.2.2.1, s3)
  else some acc

/-- Model of `TicTacToe::get_best_move`.  `row` and `col` are the values the
output variables hold on entry; the result gives their values on exit and the
state the object is left in.  `fuel` bounds the depth of the `minimax` calls. -/
def get_best_move (fuel : Nat) (x_turn : Bool) (row col : Nat) (s : TicTacToe) :
    Option (Nat × Nat × TicTacToe) :=
  match indices.foldlM
      (fun acc _row => indices.foldlM
        (fun acc _col => get_best_move_cell fuel x_turn _row _col acc)
        acc)
      (if x_turn then INT_MIN else INT_MAX, row, col, s) with
  | none => none
  | some acc => some acc.2

end TicTacToe


/-! ## Vocabulary of the specification -/

/-- The nine cells in row-major scan order: row 0 to 2, and column 0 to 2 inside
each row. -/
def cells : List (Fin 3 × Fin 3) :=
  [(0, 0), (0, 1), (0, 2), (1, 0), (1, 1), (1, 2), (2, 0), (2, 1), (2, 2)]

/-- The eight lines of the grid in the order `get_state` checks them: rows 0 to 2,
columns 0 to 2, main diagonal, anti-diagonal. -/
def lines : List ((Fin 3 × Fin 3) × (Fin 3 × Fin 3) × (Fin 3 × Fin 3)) :=
  [((0, 0), (0, 1), (0, 2)), ((1, 0), (1, 1), (1, 2)), ((2, 0), (2, 1), (2, 2)),
   ((0, 0), (1, 0), (2, 0)), ((0, 1), (1, 1), (2, 1)), ((0, 2), (1, 2), (2, 2)),
   ((0, 0), (1, 1), (2, 2)), ((0, 2), (1, 1), (2, 0))]

namespace TicTacToe

open Cell State

/-- The content of the cell at a position. -/
def at_pos (s : TicTacToe) (p : Fin 3 × Fin 3) : Cell :=
  s.m_board.get p.1 p.2

/-- All three cells of line `l` hold the value `m`. -/
def line_filled (s : TicTacToe) (l : (Fin 3 × Fin 3) × (Fin 3 × Fin 3) × (Fin 3 × Fin 3))
    (m : Cell) : Prop :=
  s.at_pos l.1 = m ∧ s.at_pos l.2.1 = m ∧ s.at_pos l.2.2 = m

instance (s : TicTacToe) (l : (Fin 3 × Fin 3) × (Fin 3 × Fin 3) × (Fin 3 × Fin 3))
    (m : Cell) : Decidable (s.line_filled l m) :=
  inferInstanceAs (Decidable (s.at_pos l.1 = m ∧ s.at_pos l.2.1 = m ∧ s.at_pos l.2.2 = m))

/-- Line `l` holds three equal marks, X or O. -/
def line_complete (s : TicTacToe)
    (l : (Fin 3 × Fin 3) × (Fin 3 × Fin 3) × (Fin 3 × Fin 3)) : Prop :=
  s.line_filled l X_CHAR ∨ s.line_filled l O_CHAR

instance (s : TicTacToe) (l : (Fin 3 × Fin 3) × (Fin 3 × Fin 3) × (Fin 3 × Fin 3)) :
    Decidable (s.line_complete l) :=
  inferInstanceAs (Decidable (s.line_filled l X_CHAR ∨ s.line_filled l O_CHAR))

/-- The winning state of a mark: `X_WINS` for X, `O_WINS` otherwise. -/
def win_of (m : Cell) : State :=
  if m = X_CHAR then X_WINS else O_WINS

/-- The mark of the other player. -/
def other_mark (m : Cell) : Cell :=
  match m with
  | X_CHAR => O_CHAR
  | O_CHAR => X_CHAR
  | EMPTY_CELL => EMPTY_CELL

/-- The mark placed by the side a flag stands for: X for `true`, O for `false`. -/
def mark_of (x_turn : Bool) : Cell :=
  if x_turn then X_CHAR else O_CHAR

/-- Number of empty cells of the board. -/
def count_empty (s : TicTacToe) : Nat :=
  cells.countP fun p => decide (s.at_pos p = EMPTY_CELL)

/-- The empty cells of the board in row-major order. -/
def empty_cells (s : TicTacToe) : List (Fin 3 × Fin 3) :=
  cells.filter fun p => decide (s.at_pos p = EMPTY_CELL)

/-- Row-major order on cells: `p` comes strictly before `q` in the scan. -/
def scan_lt (p q : Fin 3 × Fin 3) : Prop :=
  p.1 < q.1 ∨ (p.1 = q.1 ∧ p.2 < q.2)

instance (p q : Fin 3 × Fin 3) : Decidable (scan_lt p q) :=
  inferInstanceAs (Decidable (p.1 < q.1 ∨ (p.1 = q.1 ∧ p.2 < q.2)))

/-- The first line, in the order of `lines`, that holds three equal marks. -/
def first_complete_line (s : TicTacToe) :
    Option ((Fin 3 × Fin 3) × (Fin 3 × Fin 3) × (Fin 3 × Fin 3)) :=
  lines.find? fun l => decide (s.line_complete l)

/-- The game-theoretic value of a position as the specification words it, on
immutable boards: the payoff of `evaluate_board` when the game is over, else the
maximum (X to place, `maximizing`) or the minimum (O to place) of the values of
the boards obtained by filling one empty cell, taken with the opposite flag.
A board still in play has an empty cell, so the lists are never empty there. -/
def game_value (maximizing : Bool) (s : TicTacToe) : Int :=
  if get_state s ≠ PLAYING then evaluate_board s
  else
    let vals := (empty_cells s).attach.map fun p =>
      game_value (!maximizing) (s.set_cell p.1.1 p.1.2 (mark_of maximizing))
    if maximizing then vals.max?.getD 0 else vals.min?.getD 0
termination_by count_empty s
decreasing_by
  have hp : s.at_pos p.1 = EMPTY_CELL := by
    have := p.2
    simp [empty_cells] at this
    exact this.2
  have hm : mark_of maximizing ≠ EMPTY_CELL := by cases maximizing <;> simp [mark_of]
  obtain ⟨⟨r, c⟩, _⟩ := p
  obtain ⟨t, ⟨⟨c00, c01, c02⟩, ⟨c10, c11, c12⟩, ⟨c20, c21, c22⟩⟩⟩ := s
  fin_cases r <;> fin_cases c <;>
    simp [count_empty, cells, at_pos, set_cell, Board.get, Board.set, Array3.get, Array3.set,
      List.countP_cons] at hp ⊢ <;> simp [hp, hm]

/-- The score that `get_best_move(x_turn)` obtains for the empty cell `p`: the
result of `minimax(!x_turn)` on the board with the mark of `x_turn` placed at `p`. -/
def post_move_value (fuel : Nat) (x_turn : Bool) (s : TicTacToe) (p : Fin 3 × Fin 3) :
    Option Int :=
  (minimax fuel (!x_turn) (s.set_cell p.1 p.2 (if x_turn then X_CHAR else O_CHAR))).map
    Prod.fst

/-- The body of the scan of `get_best_move` with the tie-break as the
specification words it: the candidate is replaced only when the score strictly
improves the running best (`>` for X, `<` for O). -/
def get_best_move_strict_cell (fuel : Nat) (x_turn : Bool) (_row _col : Fin 3)
    (acc : Int × Nat × Nat × TicTacToe) : Option (Int × Nat × Nat × TicTacToe) :=
  if acc.2.2.2.m_board.get _row _col = EMPTY_CELL then
    match minimax fuel (!x_turn)
        (acc.2.2.2.set_cell _row _col (if x_turn then X_CHAR else O_CHAR)) with
    | none => none
    | some (score, s2) =>
      let s3 : TicTacToe := s2.set_cell _row _col EMPTY_CELL
      if (if x_turn then acc.1 < score else score < acc.1) then
        some (score, _row.val, _col.val, s3)
      else
        some (acc.1, acc.2.1, acc.2.2.1, s3)
  else some acc

/-- The scan of `get_best_move` with the strict-improvement tie-break. -/
def get_best_move_strict (fuel : Nat) (x_turn : Bool) (row col : Nat) (s : TicTacToe) :
    Option (Nat × Nat × TicTacToe) :=
  match indices.foldlM
      (fun acc _row => indices.foldlM
        (fun acc _col => get_best_move_strict_cell fuel x_turn _row _col acc)
        acc)
      (if x_turn then INT_MIN else INT_MAX, row, col, s) with
  | none => none
  | some acc => some acc.2

/-- The board of the scenario "take the winning line": rows `X X -`, `O O -`,
`- - -`, with X to move. -/
def board_take_win : TicTacToe :=
  ⟨true, ⟨⟨X_CHAR, X_CHAR, EMPTY_CELL⟩, ⟨O_CHAR, O_CHAR, EMPTY_CELL⟩,
    ⟨EMPTY_CELL, EMPTY_CELL, EMPTY_CELL⟩⟩⟩

/-- The value `static_cast<std::size_t>(-1)` that `play` stores in `row` and
`col` before each move, for a 64-bit `std::size_t`. -/
def SIZE_MAX : Nat := 18446744073709551615

/-- The loop of `play` (from `State state = get_state()` to the end of the
`while`) with the moves of both sides chosen by `get_best_move(m_x_turn)`.  The
first argument bounds the number of times the loop condition is tested; the
result is the number of moves made and the state at loop exit.  The searches
get fuel 9, the number of cells. -/
def self_play : Nat → TicTacToe → Option (Nat × TicTacToe)
  | 0, _ => none
  | n + 1, s =>
    if get_state s = PLAYING then
      match get_best_move 9 s.m_x_turn SIZE_MAX SIZE_MAX s with
      | none => none
      | some (row, col, s1) =>
        match make_move s1 row col with
        | none => none
        | some s2 => (self_play n s2).map fun r => (r.1 + 1, r.2)
    else some (0, s)

/-- Number of cells of the board that hold the value `m`. -/
def count_mark (s : TicTacToe) (m : Cell) : Nat :=
  cells.countP fun p => decide (s.at_pos p = m)

/-- The undo of a move as the specification words it: the cell is set back to
`EMPTY_CELL` and the turn indicator is negated again.  Like `make_move` it is
only defined inside the grid. -/
def undo_move (s : TicTacToe) (row col : Nat) : Option TicTacToe :=
  if hr : row < 3 then
    if hc : col < 3 then
      some ⟨!s.m_x_turn, s.m_board.set ⟨row, hr⟩ ⟨col, hc⟩ EMPTY_CELL⟩
    else none
  else none

/-- The states reachable from the constructor's state by `make_move` calls on
coordinates accepted by `is_valid_move`. -/
inductive Reachable : TicTacToe → Prop where
  | start : Reachable new
  | move (s s' : TicTacToe) (row col : Nat) :
      Reachable s → is_valid_move s row col = true → make_move s row col = some s' →
      Reachable s'

/-- The states reachable from the constructor's state by the step of the game:
a `make_move` on coordinates accepted by `is_valid_move`, taken only while
`get_state` is `PLAYING`, as the loop of `play` does. -/
inductive GameReach : TicTacToe → Prop where
  | start : GameReach new
  | move (s s' : TicTacToe) (row col : Nat) :
      GameReach s → get_state s = PLAYING → is_valid_move s row col = true →
      make_move s row col = some s' → GameReach s'

/-- The result of `get_state` when its eight line checks are made in the order
`ls` instead of the order of `lines`: the win of the mark on the first complete
line, else the fullness test. -/
def get_state_in_order (ls : List ((Fin 3 × Fin 3) × (Fin 3 × Fin 3) × (Fin 3 × Fin 3)))
    (s : TicTacToe) : State :=
  match ls.find? fun l => decide (s.line_complete l) with
  | some l => win_of (s.at_pos l.1)
  | none => if any_space_left s then PLAYING else DRAW

/-- The `do ... while (!is_valid_move(--row, --col))` loop of `play`.  The list
holds the pairs entered by the human, after the decrement; entries are consumed
until one is accepted.  The result is the accepted pair and the entries left. -/
def read_move (s : TicTacToe) : List (Nat × Nat) → Option ((Nat × Nat) × List (Nat × Nat))
  | [] => none
  | (row, col) :: rest =>
    if is_valid_move s row col then some ((row, col), rest) else read_move s rest

/-- The loop of `play` (from `State state = get_state()` to the end of the
`while`): X moves by `get_best_move(m_x_turn)`, O by the entries of the human.
The first argument bounds the number of times the loop condition is tested;
the result is the state at loop exit, and `none` when the bound or the entries
run out.  The searches get fuel 9, the number of cells. -/
def play_loop : Nat → List (Nat × Nat) → TicTacToe → Option TicTacToe
  | 0, _, _ => none
  | n + 1, inputs, s =>
    if get_state s = PLAYING then
      if s.m_x_turn then
        match get_best_move 9 s.m_x_turn SIZE_MAX SIZE_MAX s with
        | none => none
        | some (row, col, s1) =>
          match make_move s1 row col with
          | none => none
          | some s2 => play_loop n inputs s2
      else
        match read_move s inputs with
        | none => none
        | some ((row, col), rest) =>
          match make_move s row col with
          | none => none
          | some s2 => play_loop n rest s2
    else some s

/-- The board of the scenario "block": rows `O O -`, `X X -`, `- - -`, with X
to move. -/
def board_block : TicTacToe :=
  ⟨true, ⟨⟨O_CHAR, O_CHAR, EMPTY_CELL⟩, ⟨X_CHAR, X_CHAR, EMPTY_CELL⟩,
    ⟨EMPTY_CELL, EMPTY_CELL, EMPTY_CELL⟩⟩⟩

/-- The board with rows `X O -`, `O X -`, `- - -`, with X to move. -/
def board_slow_win : TicTacToe :=
  ⟨true, ⟨⟨X_CHAR, O_CHAR, EMPTY_CELL⟩, ⟨O_CHAR, X_CHAR, EMPTY_CELL⟩,
    ⟨EMPTY_CELL, EMPTY_CELL, EMPTY_CELL⟩⟩⟩

/-! ## Auxiliary definitions used in the proofs -/

/-- The running best of a scan after it has visited cell `p`, when the search
below an empty cell `p` is known to return `val p`. -/
def best_step (maximizing : Bool) (s : TicTacToe) (val : Fin 3 × Fin 3 → Int) (best : Int)
    (p : Fin 3 × Fin 3) : Int :=
  if s.at_pos p = EMPTY_CELL then
    (if maximizing then max best (val p) else min best (val p))
  else best

/-- The running best and the output variables of `get_best_move` after its scan
has visited cell `p`, when the search below an empty cell `p` is known to
return `val p`. -/
def pick_step (x_turn : Bool) (s : TicTacToe) (val : Fin 3 × Fin 3 → Int)
    (acc : Int × Nat × Nat) (p : Fin 3 × Fin 3) : Int × Nat × Nat :=
  if s.at_pos p = EMPTY_CELL then
    if acc.1 ≠ (if x_turn then max acc.1 (val p) else min acc.1 (val p)) then
      ((if x_turn then max acc.1 (val p) else min acc.1 (val p)), p.1.val, p.2.val)
    else
      ((if x_turn then max acc.1 (val p) else min acc.1 (val p)), acc.2.1, acc.2.2)
  else acc

/-- Evaluate cell `c` to a constructor before passing it on. -/
def force_cell {α : Type} (c : Cell) (k : Cell → α) : α :=
  match c with
  | EMPTY_CELL => k EMPTY_CELL
  | X_CHAR => k X_CHAR
  | O_CHAR => k O_CHAR

/-- Evaluate flag `b` to a constructor before passing it on. -/
def force_bool {α : Type} (b : Bool) (k : Bool → α) : α :=
  match b with
  | true => k true
  | false => k false

/-- Evaluate the turn flag and the nine cells of the board before passing the
state on. -/
def force_state {α : Type} (s : TicTacToe) (k : TicTacToe → α) : α :=
  force_bool s.m_x_turn fun t =>
  force_cell s.m_board.a0.a0 fun c00 => force_cell s.m_board.a0.a1 fun c01 =>
  force_cell s.m_board.a0.a2 fun c02 => force_cell s.m_board.a1.a0 fun c10 =>
  force_cell s.m_board.a1.a1 fun c11 => force_cell s.m_board.a1.a2 fun c12 =>
  force_cell s.m_board.a2.a0 fun c20 => force_cell s.m_board.a2.a1 fun c21 =>
  force_cell s.m_board.a2.a2 fun c22 =>
    k ⟨t, ⟨⟨c00, c01, c02⟩, ⟨c10, c11, c12⟩, ⟨c20, c21, c22⟩⟩⟩

/-- The nine cells, centre first, then corners, then edges: the order in which
`value_at_least` tries the moves. -/
def probe_order : List (Fin 3 × Fin 3) :=
  [(1, 1), (0, 0), (0, 2), (2, 0), (2, 2), (0, 1), (1, 0), (1, 2), (2, 1)]

/-- A short-circuit test for "the value of the position is at least `v`": X
needs one move that keeps the bound, O must keep it with every move. -/
def value_at_least (v : Int) : Nat → Bool → TicTacToe → Bool
  | 0, _, _ => false
  | fuel + 1, maximizing, s0 => force_state s0 fun s =>
    if get_state s ≠ PLAYING then decide (v ≤ evaluate_board s)
    else if maximizing then
      probe_order.any fun p => decide (s.at_pos p = EMPTY_CELL)
        && value_at_least v fuel false (s.set_cell p.1 p.2 X_CHAR)
    else
      probe_order.all fun p => !decide (s.at_pos p = EMPTY_CELL)
        || value_at_least v fuel true (s.set_cell p.1 p.2 O_CHAR)

end TicTacToe

/-! ## Basic facts about the grid -/

namespace Array3

theorem array3_get_set {α : Type} (a : Array3 α) (i j : Fin 3) (v : α) :
    (a.set i v).get j = if i = j then v else a.get j := by
  fin_cases i <;> fin_cases j <;> rfl

theorem array3_set_set {α : Type} (a : Array3 α) (i : Fin 3) (v w : α) :
    (a.set i v).set i w = a.set i w := by
  fin_cases i <;> rfl

theorem array3_set_get {α : Type} (a : Array3 α) (i : Fin 3) : a.set i (a.get i) = a := by
  fin_cases i <;> rfl

end Array3

namespace Board

theorem board_get_set (b : Board) (r c r' c' : Fin 3) (v : Cell) :
    (b.set r c v).get r' c' = if r = r' ∧ c = c' then v else b.get r' c' := by
  unfold Board.get Board.set
  rw [Array3.array3_get_set]
  by_cases hr : r = r'
  · subst hr
    simp [Array3.array3_get_set]
  · simp [hr]

theorem board_set_set (b : Board) (r c : Fin 3) (v w : Cell) :
    (b.set r c v).set r c w = b.set r c w := by
  unfold Board.set
  rw [Array3.array3_set_set, Array3.array3_get_set]
  simp [Array3.array3_set_set]

theorem board_set_get (b : Board) (r c : Fin 3) : b.set r c (b.get r c) = b := by
  unfold Board.set Board.get
  rw [Array3.array3_set_get, Array3.array3_set_get]

end Board

/-! ## What `get_state` computes -/

namespace TicTacToe

open Cell State

theorem three_equal_iff (a b c : Cell) :
    (a ≠ EMPTY_CELL ∧ a = b ∧ b = c) ↔
      ((a = X_CHAR ∧ b = X_CHAR ∧ c = X_CHAR) ∨ (a = O_CHAR ∧ b = O_CHAR ∧ c = O_CHAR)) := by
  cases a <;> cases b <;> cases c <;> simp

theorem get_state_rows_eq (s : TicTacToe) (rs : List (Fin 3)) :
    get_state_rows s rs =
      ((rs.map fun r => ((r, (0 : Fin 3)), (r, (1 : Fin 3)), (r, (2 : Fin 3)))).find?
        fun l => decide (s.line_complete l)).map fun l => win_of (s.at_pos l.1) := by
  induction rs with
  | nil => rfl
  | cons r rs ih =>
    simp only [get_state_rows, List.map_cons, List.find?_cons, ih, three_equal_iff]
    by_cases h : s.line_complete ((r, 0), (r, 1), (r, 2))
    · have h' := h
      simp only [line_complete, line_filled, at_pos] at h'
      simp [h, h', win_of, at_pos]
    · have h' := h
      simp only [line_complete, line_filled, at_pos] at h'
      simp [h, h']

theorem get_state_cols_eq (s : TicTacToe) (cs : List (Fin 3)) :
    get_state_cols s cs =
      ((cs.map fun c => (((0 : Fin 3), c), ((1 : Fin 3), c), ((2 : Fin 3), c))).find?
        fun l => decide (s.line_complete l)).map fun l => win_of (s.at_pos l.1) := by
  induction cs with
  | nil => rfl
  | cons c cs ih =>
    simp only [get_state_cols, List.map_cons, List.find?_cons, ih, three_equal_iff]
    by_cases h : s.line_complete ((0, c), (1, c), (2, c))
    · have h' := h
      simp only [line_complete, line_filled, at_pos] at h'
      simp [h, h', win_of, at_pos]
    · have h' := h
      simp only [line_complete, line_filled, at_pos] at h'
      simp [h, h']

theorem lines_eq :
    lines = (indices.map fun r => ((r, (0 : Fin 3)), (r, (1 : Fin 3)), (r, (2 : Fin 3))))
      ++ ((indices.map fun c => (((0 : Fin 3), c), ((1 : Fin 3), c), ((2 : Fin 3), c)))
      ++ [((0, 0), (1, 1), (2, 2)), ((0, 2), (1, 1), (2, 0))]) := rfl

theorem get_state_eq (s : TicTacToe) :
    get_state s =
      match first_complete_line s with
      | some l => win_of (s.at_pos l.1)
      | none => if any_space_left s then PLAYING else DRAW := by
  unfold get_state first_complete_line
  rw [get_state_rows_eq, get_state_cols_eq, lines_eq, List.find?_append, List.find?_append]
  cases h1 : List.find? (fun l => decide (s.line_complete l))
      (indices.map fun r => ((r, (0 : Fin 3)), (r, (1 : Fin 3)), (r, (2 : Fin 3)))) with
  | some l => simp
  | none =>
    cases h2 : List.find? (fun l => decide (s.line_complete l))
        (indices.map fun c => (((0 : Fin 3), c), ((1 : Fin 3), c), ((2 : Fin 3), c))) with
    | some l => simp
    | none =>
      simp only [Option.map_none', Option.none_or, List.find?_cons, List.find?_nil,
        three_equal_iff]
      by_cases h3 : s.line_complete ((0, 0), (1, 1), (2, 2))
      · have h' := h3
        simp only [line_complete, line_filled, at_pos] at h'
        simp only [h3, h', decide_True, if_true, win_of, at_pos]
      · have h' := h3
        simp only [line_complete, line_filled, at_pos] at h'
        by_cases h4 : s.line_complete ((0, 2), (1, 1), (2, 0))
        · have h'' := h4
          simp only [line_complete, line_filled, at_pos] at h''
          simp only [h3, h', h4, h'', decide_True, decide_False, if_true, if_false, win_of,
            at_pos]
        · have h'' := h4
          simp only [line_complete, line_filled, at_pos] at h''
          simp only [h3, h', h4, h'', decide_False, if_false]
          cases any_space_left s <;> rfl

theorem mem_indices (i : Fin 3) : i ∈ indices := by
  fin_cases i <;> simp [indices]

theorem mem_cells (p : Fin 3 × Fin 3) : p ∈ cells := by
  obtain ⟨r, c⟩ := p
  fin_cases r <;> fin_cases c <;> simp [cells]

theorem any_space_left_iff (s : TicTacToe) :
    any_space_left s = true ↔ ∃ p, s.at_pos p = EMPTY_CELL := by
  unfold any_space_left at_pos
  simp only [List.any_eq_true, decide_eq_true_eq]
  constructor
  · rintro ⟨r, _, c, _, h⟩
    exact ⟨(r, c), h⟩
  · rintro ⟨⟨r, c⟩, h⟩
    exact ⟨r, mem_indices r, c, mem_indices c, h⟩

theorem first_complete_line_none_iff (s : TicTacToe) :
    first_complete_line s = none ↔ ∀ l ∈ lines, ¬ s.line_complete l := by
  simp [first_complete_line, List.find?_eq_none]

theorem first_complete_line_some (s : TicTacToe)
    (l : (Fin 3 × Fin 3) × (Fin 3 × Fin 3) × (Fin 3 × Fin 3))
    (h : first_complete_line s = some l) : l ∈ lines ∧ s.line_complete l := by
  unfold first_complete_line at h
  have h1 := List.find?_some h
  have h2 := List.mem_of_find?_eq_some h
  exact ⟨h2, by simpa using h1⟩

theorem win_of_ne (m : Cell) : win_of m ≠ PLAYING ∧ win_of m ≠ DRAW := by
  unfold win_of
  split <;> simp

/-- With no complete line the state is decided by the fullness test alone. -/
theorem get_state_of_no_line (s : TicTacToe) (h : ∀ l ∈ lines, ¬ s.line_complete l) :
    get_state s = if any_space_left s then PLAYING else DRAW := by
  rw [get_state_eq, (first_complete_line_none_iff s).2 h]

/-- With a complete line the state is the win of the mark on the first such line. -/
theorem get_state_of_line (s : TicTacToe)
    (h : ∃ l ∈ lines, s.line_complete l) :
    ∃ l ∈ lines, s.line_complete l ∧ get_state s = win_of (s.at_pos l.1) := by
  cases hf : first_complete_line s with
  | none =>
    obtain ⟨l, hl, hc⟩ := h
    exact absurd hc ((first_complete_line_none_iff s).1 hf l hl)
  | some l =>
    obtain ⟨hl, hc⟩ := first_complete_line_some s l hf
    exact ⟨l, hl, hc, by rw [get_state_eq, hf]⟩

theorem get_state_playing_iff (s : TicTacToe) :
    get_state s = PLAYING ↔
      (∀ l ∈ lines, ¬ s.line_complete l) ∧ ∃ p, s.at_pos p = EMPTY_CELL := by
  constructor
  · intro h
    by_cases hl : ∃ l ∈ lines, s.line_complete l
    · obtain ⟨l, _, _, h'⟩ := get_state_of_line s hl
      rw [h] at h'
      exact absurd h'.symm (win_of_ne _).1
    · have hl' : ∀ l ∈ lines, ¬ s.line_complete l := fun l hm hc => hl ⟨l, hm, hc⟩
      refine ⟨hl', ?_⟩
      rw [get_state_of_no_line s hl'] at h
      rw [← any_space_left_iff]
      by_contra hn
      simp [hn] at h
  · rintro ⟨hl, hp⟩
    rw [get_state_of_no_line s hl, (any_space_left_iff s).2 hp]
    rfl

end TicTacToe

/-! ## Placing and removing a mark -/

namespace TicTacToe

open Cell State

theorem at_pos_set_cell (s : TicTacToe) (p q : Fin 3 × Fin 3) (v : Cell) :
    (s.set_cell p.1 p.2 v).at_pos q = if p = q then v else s.at_pos q := by
  unfold at_pos set_cell
  simp only [Board.board_get_set, Prod.ext_iff]

theorem set_cell_restore (s : TicTacToe) (p : Fin 3 × Fin 3) (v : Cell)
    (h : s.at_pos p = EMPTY_CELL) :
    (s.set_cell p.1 p.2 v).set_cell p.1 p.2 EMPTY_CELL = s := by
  unfold at_pos at h
  unfold set_cell
  simp only [Board.board_set_set]
  rw [← h, Board.board_set_get]

theorem count_empty_set_cell (s : TicTacToe) (p : Fin 3 × Fin 3) (m : Cell)
    (hp : s.at_pos p = EMPTY_CELL) (hm : m ≠ EMPTY_CELL) :
    (s.set_cell p.1 p.2 m).count_empty + 1 = s.count_empty := by
  obtain ⟨r, c⟩ := p
  obtain ⟨t, ⟨⟨c00, c01, c02⟩, ⟨c10, c11, c12⟩, ⟨c20, c21, c22⟩⟩⟩ := s
  fin_cases r <;> fin_cases c <;>
    simp [count_empty, cells, at_pos, set_cell, Board.get, Board.set, Array3.get, Array3.set,
      List.countP_cons] at hp ⊢ <;> simp [hp, hm] <;> omega

theorem mark_of_ne_empty (x_turn : Bool) : mark_of x_turn ≠ EMPTY_CELL := by
  cases x_turn <;> simp [mark_of]

theorem mem_empty_cells (s : TicTacToe) (p : Fin 3 × Fin 3) :
    p ∈ empty_cells s ↔ s.at_pos p = EMPTY_CELL := by
  simp [empty_cells, mem_cells]

theorem count_empty_le (s : TicTacToe) : count_empty s ≤ 9 := by
  unfold count_empty
  exact List.countP_le_length _

theorem count_empty_pos (s : TicTacToe) (p : Fin 3 × Fin 3) (hp : s.at_pos p = EMPTY_CELL) :
    0 < count_empty s := by
  unfold count_empty
  rw [List.countP_pos_iff]
  exact ⟨p, mem_cells p, by simpa using hp⟩

/-! ## The value of a position -/

theorem foldl_max_spec (xs : List Int) (a : Int) :
    (xs.foldl max a = a ∨ xs.foldl max a ∈ xs) ∧ a ≤ xs.foldl max a
      ∧ ∀ x ∈ xs, x ≤ xs.foldl max a := by
  induction xs generalizing a with
  | nil => simp
  | cons y ys ih =>
    obtain ⟨h1, h2, h3⟩ := ih (max a y)
    simp only [List.foldl_cons, List.mem_cons]
    refine ⟨?_, ?_, ?_⟩
    · rcases h1 with h | h
      · rcases max_choice a y with h' | h'
        · left; rw [h, h']
        · right; left; rw [h, h']
      · right; right; exact h
    · exact le_trans (le_max_left a y) h2
    · intro x hx
      rcases hx with rfl | hx
      · exact le_trans (le_max_right a x) h2
      · exact h3 x hx

theorem foldl_min_spec (xs : List Int) (a : Int) :
    (xs.foldl min a = a ∨ xs.foldl min a ∈ xs) ∧ xs.foldl min a ≤ a
      ∧ ∀ x ∈ xs, xs.foldl min a ≤ x := by
  induction xs generalizing a with
  | nil => simp
  | cons y ys ih =>
    obtain ⟨h1, h2, h3⟩ := ih (min a y)
    simp only [List.foldl_cons, List.mem_cons]
    refine ⟨?_, ?_, ?_⟩
    · rcases h1 with h | h
      · rcases min_choice a y with h' | h'
        · left; rw [h, h']
        · right; left; rw [h, h']
      · right; right; exact h
    · exact le_trans h2 (min_le_left a y)
    · intro x hx
      rcases hx with rfl | hx
      · exact le_trans h2 (min_le_right a x)
      · exact h3 x hx

theorem max_getD_spec (xs : List Int) (hne : xs ≠ []) :
    xs.max?.getD 0 ∈ xs ∧ ∀ x ∈ xs, x ≤ xs.max?.getD 0 := by
  cases xs with
  | nil => exact absurd rfl hne
  | cons y ys =>
    obtain ⟨h1, h2, h3⟩ := foldl_max_spec ys y
    simp only [List.max?_cons', Option.getD_some, List.mem_cons]
    refine ⟨?_, ?_⟩
    · rcases h1 with h | h
      · left; exact h
      · right; exact h
    · intro x hx
      rcases hx with rfl | hx
      · exact h2
      · exact h3 x hx

theorem min_getD_spec (xs : List Int) (hne : xs ≠ []) :
    xs.min?.getD 0 ∈ xs ∧ ∀ x ∈ xs, xs.min?.getD 0 ≤ x := by
  cases xs with
  | nil => exact absurd rfl hne
  | cons y ys =>
    obtain ⟨h1, h2, h3⟩ := foldl_min_spec ys y
    simp only [List.min?_cons', Option.getD_some, List.mem_cons]
    refine ⟨?_, ?_⟩
    · rcases h1 with h | h
      · left; exact h
      · right; exact h
    · intro x hx
      rcases hx with rfl | hx
      · exact h2
      · exact h3 x hx

theorem game_value_eq (maximizing : Bool) (s : TicTacToe) :
    game_value maximizing s =
      if get_state s ≠ PLAYING then evaluate_board s
      else if maximizing then
        ((empty_cells s).map fun p => game_value false (s.set_cell p.1 p.2 X_CHAR)).max?.getD 0
      else
        ((empty_cells s).map fun p => game_value true (s.set_cell p.1 p.2 O_CHAR)).min?.getD 0 := by
  rw [game_value]
  cases maximizing <;> simp [mark_of, List.map_attach]

theorem game_value_terminal (maximizing : Bool) (s : TicTacToe) (h : get_state s ≠ PLAYING) :
    game_value maximizing s = evaluate_board s := by
  rw [game_value_eq, if_pos h]

theorem empty_cells_ne_nil (s : TicTacToe) (h : get_state s = PLAYING) :
    empty_cells s ≠ [] := by
  obtain ⟨p, hp⟩ := ((get_state_playing_iff s).1 h).2
  intro hnil
  have := (mem_empty_cells s p).2 hp
  rw [hnil] at this
  exact absurd this (List.not_mem_nil p)

/-- The value of a position in play with X to place is attained at some empty
cell and bounds the value at every empty cell from above. -/
theorem game_value_max (s : TicTacToe) (h : get_state s = PLAYING) :
    (∃ p, s.at_pos p = EMPTY_CELL
        ∧ game_value true s = game_value false (s.set_cell p.1 p.2 X_CHAR))
      ∧ ∀ p, s.at_pos p = EMPTY_CELL →
          game_value false (s.set_cell p.1 p.2 X_CHAR) ≤ game_value true s := by
  have hne : ((empty_cells s).map fun p => game_value false (s.set_cell p.1 p.2 X_CHAR)) ≠ [] := by
    simpa using empty_cells_ne_nil s h
  obtain ⟨h1, h2⟩ := max_getD_spec _ hne
  have hv : game_value true s =
      ((empty_cells s).map fun p => game_value false (s.set_cell p.1 p.2 X_CHAR)).max?.getD 0 := by
    rw [game_value_eq]
    simp [h]
  rw [hv]
  refine ⟨?_, ?_⟩
  · obtain ⟨p, hp, hpv⟩ := List.mem_map.1 h1
    exact ⟨p, (mem_empty_cells s p).1 hp, hpv.symm⟩
  · intro p hp
    exact h2 _ (List.mem_map.2 ⟨p, (mem_empty_cells s p).2 hp, rfl⟩)

/-- The value of a position in play with O to place is attained at some empty
cell and bounds the value at every empty cell from below. -/
theorem game_value_min (s : TicTacToe) (h : get_state s = PLAYING) :
    (∃ p, s.at_pos p = EMPTY_CELL
        ∧ game_value false s = game_value true (s.set_cell p.1 p.2 O_CHAR))
      ∧ ∀ p, s.at_pos p = EMPTY_CELL →
          game_value false s ≤ game_value true (s.set_cell p.1 p.2 O_CHAR) := by
  have hne : ((empty_cells s).map fun p => game_value true (s.set_cell p.1 p.2 O_CHAR)) ≠ [] := by
    simpa using empty_cells_ne_nil s h
  obtain ⟨h1, h2⟩ := min_getD_spec _ hne
  have hv : game_value false s =
      ((empty_cells s).map fun p => game_value true (s.set_cell p.1 p.2 O_CHAR)).min?.getD 0 := by
    rw [game_value_eq]
    simp [h]
  rw [hv]
  refine ⟨?_, ?_⟩
  · obtain ⟨p, hp, hpv⟩ := List.mem_map.1 h1
    exact ⟨p, (mem_empty_cells s p).1 hp, hpv.symm⟩
  · intro p hp
    exact h2 _ (List.mem_map.2 ⟨p, (mem_empty_cells s p).2 hp, rfl⟩)

theorem evaluate_board_range (s : TicTacToe) : -1 ≤ evaluate_board s ∧ evaluate_board s ≤ 1 := by
  unfold evaluate_board
  cases get_state s <;> simp

/-- Every position has a value among -1, 0 and 1. -/
theorem game_value_range (n : Nat) :
    ∀ (maximizing : Bool) (s : TicTacToe), count_empty s ≤ n →
      -1 ≤ game_value maximizing s ∧ game_value maximizing s ≤ 1 := by
  induction n with
  | zero =>
    intro maximizing s hn
    have hs : get_state s ≠ PLAYING := by
      intro h
      obtain ⟨p, hp⟩ := ((get_state_playing_iff s).1 h).2
      have := count_empty_pos s p hp
      omega
    rw [game_value_terminal maximizing s hs]
    exact evaluate_board_range s
  | succ n ih =>
    intro maximizing s hn
    by_cases hs : get_state s = PLAYING
    · cases maximizing with
      | true =>
        obtain ⟨⟨p, hp, hv⟩, _⟩ := game_value_max s hs
        rw [hv]
        have := count_empty_set_cell s p X_CHAR hp (by simp)
        exact ih false _ (by omega)
      | false =>
        obtain ⟨⟨p, hp, hv⟩, _⟩ := game_value_min s hs
        rw [hv]
        have := count_empty_set_cell s p O_CHAR hp (by simp)
        exact ih true _ (by omega)
    · rw [game_value_terminal maximizing s hs]
      exact evaluate_board_range s

theorem game_value_ge (maximizing : Bool) (s : TicTacToe) : -1 ≤ game_value maximizing s :=
  (game_value_range (count_empty s) maximizing s (le_refl _)).1

theorem game_value_le (maximizing : Bool) (s : TicTacToe) : game_value maximizing s ≤ 1 :=
  (game_value_range (count_empty s) maximizing s (le_refl _)).2

end TicTacToe

/-! ## The in-place search computes the value and restores the board -/

namespace TicTacToe

open Cell State

theorem scan_eq_cells {β : Type} (F : Fin 3 → Fin 3 → β → Option β) (init : β) :
    indices.foldlM (fun acc row => indices.foldlM (fun acc col => F row col acc) acc) init
      = cells.foldlM (fun acc p => F p.1 p.2 acc) init := by
  simp only [indices, cells, List.foldlM_cons, List.foldlM_nil, bind_assoc, bind_pure]

theorem minimax_cell_eq (rec : TicTacToe → Option (Int × TicTacToe)) (maximizing : Bool)
    (s : TicTacToe) (val : Fin 3 × Fin 3 → Int)
    (hrec : ∀ p, s.at_pos p = EMPTY_CELL →
      rec (s.set_cell p.1 p.2 (if maximizing then X_CHAR else O_CHAR))
        = some (val p, s.set_cell p.1 p.2 (if maximizing then X_CHAR else O_CHAR)))
    (best : Int) (p : Fin 3 × Fin 3) :
    minimax_cell rec maximizing p.1 p.2 (best, s)
      = some (best_step maximizing s val best p, s) := by
  unfold minimax_cell best_step
  by_cases hp : s.at_pos p = EMPTY_CELL
  · have hp' : s.m_board.get p.1 p.2 = EMPTY_CELL := hp
    simp only [hp', hp, if_true, hrec p hp, set_cell_restore s p _ hp]
  · have hp' : ¬ s.m_board.get p.1 p.2 = EMPTY_CELL := hp
    simp only [hp', hp, if_false]

theorem minimax_cells_fold (rec : TicTacToe → Option (Int × TicTacToe)) (maximizing : Bool)
    (s : TicTacToe) (val : Fin 3 × Fin 3 → Int)
    (hrec : ∀ p, s.at_pos p = EMPTY_CELL →
      rec (s.set_cell p.1 p.2 (if maximizing then X_CHAR else O_CHAR))
        = some (val p, s.set_cell p.1 p.2 (if maximizing then X_CHAR else O_CHAR)))
    (l : List (Fin 3 × Fin 3)) :
    ∀ best : Int, l.foldlM (fun acc p => minimax_cell rec maximizing p.1 p.2 acc) (best, s)
      = some (l.foldl (best_step maximizing s val) best, s) := by
  induction l with
  | nil => intro best; rfl
  | cons p l ih =>
    intro best
    rw [List.foldlM_cons, minimax_cell_eq rec maximizing s val hrec best p]
    exact ih _

theorem best_step_max_spec (s : TicTacToe) (val : Fin 3 × Fin 3 → Int)
    (l : List (Fin 3 × Fin 3)) :
    ∀ b : Int, b ≤ l.foldl (best_step true s val) b
      ∧ (∀ p ∈ l, s.at_pos p = EMPTY_CELL → val p ≤ l.foldl (best_step true s val) b)
      ∧ (l.foldl (best_step true s val) b = b
          ∨ ∃ p ∈ l, s.at_pos p = EMPTY_CELL ∧ l.foldl (best_step true s val) b = val p) := by
  induction l with
  | nil => intro b; simp
  | cons q l ih =>
    intro b
    obtain ⟨h1, h2, h3⟩ := ih (best_step true s val b q)
    simp only [List.foldl_cons, List.mem_cons]
    have hb : b ≤ best_step true s val b q := by
      unfold best_step
      split
      · exact le_max_left _ _
      · exact le_refl _
    refine ⟨le_trans hb h1, ?_, ?_⟩
    · intro p hp hpe
      rcases hp with rfl | hp
      · refine le_trans ?_ h1
        unfold best_step
        simp [hpe]
      · exact h2 p hp hpe
    · rcases h3 with h | ⟨p, hp, hpe, h⟩
      · by_cases hq : s.at_pos q = EMPTY_CELL
        · rcases max_choice b (val q) with hm | hm
          · left
            rw [h]
            unfold best_step
            simp only [hq, if_true, hm]
          · right
            refine ⟨q, Or.inl rfl, hq, ?_⟩
            rw [h]
            unfold best_step
            simp only [hq, if_true, hm]
        · left
          rw [h]
          unfold best_step
          simp only [hq, if_false]
      · right
        exact ⟨p, Or.inr hp, hpe, h⟩

theorem best_step_min_spec (s : TicTacToe) (val : Fin 3 × Fin 3 → Int)
    (l : List (Fin 3 × Fin 3)) :
    ∀ b : Int, l.foldl (best_step false s val) b ≤ b
      ∧ (∀ p ∈ l, s.at_pos p = EMPTY_CELL → l.foldl (best_step false s val) b ≤ val p)
      ∧ (l.foldl (best_step false s val) b = b
          ∨ ∃ p ∈ l, s.at_pos p = EMPTY_CELL ∧ l.foldl (best_step false s val) b = val p) := by
  induction l with
  | nil => intro b; simp
  | cons q l ih =>
    intro b
    obtain ⟨h1, h2, h3⟩ := ih (best_step false s val b q)
    simp only [List.foldl_cons, List.mem_cons]
    have hb : best_step false s val b q ≤ b := by
      unfold best_step
      split
      · exact min_le_left _ _
      · exact le_refl _
    refine ⟨le_trans h1 hb, ?_, ?_⟩
    · intro p hp hpe
      rcases hp with rfl | hp
      · refine le_trans h1 ?_
        unfold best_step
        simp [hpe]
      · exact h2 p hp hpe
    · rcases h3 with h | ⟨p, hp, hpe, h⟩
      · by_cases hq : s.at_pos q = EMPTY_CELL
        · rcases min_choice b (val q) with hm | hm
          · left
            rw [h]
            unfold best_step
            simp [hq, hm]
          · right
            refine ⟨q, Or.inl rfl, hq, ?_⟩
            rw [h]
            unfold best_step
            simp [hq, hm]
        · left
          rw [h]
          unfold best_step
          simp only [hq, if_false]
      · right
        exact ⟨p, Or.inr hp, hpe, h⟩

theorem cells_fold_max (s : TicTacToe) (h : get_state s = PLAYING) :
    cells.foldl (best_step true s fun p => game_value false (s.set_cell p.1 p.2 X_CHAR)) INT_MIN
      = game_value true s := by
  obtain ⟨_, h2, h3⟩ := best_step_max_spec s
    (fun p => game_value false (s.set_cell p.1 p.2 X_CHAR)) cells INT_MIN
  obtain ⟨⟨p1, hp1, hv1⟩, hle⟩ := game_value_max s h
  have hp1le := h2 p1 (mem_cells p1) hp1
  rcases h3 with h3 | ⟨p0, _, hp0, h3⟩
  · have := game_value_ge false (s.set_cell p1.1 p1.2 X_CHAR)
    rw [h3] at hp1le
    simp only [INT_MIN] at hp1le
    omega
  · have := hle p0 hp0
    rw [← hv1] at hp1le
    rw [← h3] at this
    exact le_antisymm this hp1le

theorem cells_fold_min (s : TicTacToe) (h : get_state s = PLAYING) :
    cells.foldl (best_step false s fun p => game_value true (s.set_cell p.1 p.2 O_CHAR)) INT_MAX
      = game_value false s := by
  obtain ⟨_, h2, h3⟩ := best_step_min_spec s
    (fun p => game_value true (s.set_cell p.1 p.2 O_CHAR)) cells INT_MAX
  obtain ⟨⟨p1, hp1, hv1⟩, hle⟩ := game_value_min s h
  have hp1le := h2 p1 (mem_cells p1) hp1
  rcases h3 with h3 | ⟨p0, _, hp0, h3⟩
  · have := game_value_le true (s.set_cell p1.1 p1.2 O_CHAR)
    rw [h3] at hp1le
    simp only [INT_MAX] at hp1le
    omega
  · have := hle p0 hp0
    rw [← hv1] at hp1le
    rw [← h3] at this
    exact le_antisymm hp1le this

/-- With more fuel than empty cells the in-place search returns the value of the
position and leaves the object as it found it. -/
theorem minimax_eq (fuel : Nat) :
    ∀ (maximizing : Bool) (s : TicTacToe), count_empty s < fuel →
      minimax fuel maximizing s = some (game_value maximizing s, s) := by
  induction fuel with
  | zero => intro maximizing s h; omega
  | succ fuel ih =>
    intro maximizing s hfuel
    unfold minimax
    by_cases hs : get_state s = PLAYING
    · simp only [hs, ne_eq, not_true_eq_false, if_false]
      rw [scan_eq_cells (fun row col acc =>
        minimax_cell (minimax fuel (!maximizing)) maximizing row col acc)]
      have hrec : ∀ p, s.at_pos p = EMPTY_CELL →
          minimax fuel (!maximizing) (s.set_cell p.1 p.2 (if maximizing then X_CHAR else O_CHAR))
            = some (game_value (!maximizing)
                (s.set_cell p.1 p.2 (if maximizing then X_CHAR else O_CHAR)),
              s.set_cell p.1 p.2 (if maximizing then X_CHAR else O_CHAR)) := by
        intro p hp
        apply ih
        have := count_empty_set_cell s p (if maximizing then X_CHAR else O_CHAR) hp
          (by cases maximizing <;> simp)
        omega
      rw [minimax_cells_fold (minimax fuel (!maximizing)) maximizing s _ hrec cells]
      cases maximizing with
      | true =>
        have := cells_fold_max s hs
        simp only [Bool.not_true, if_true] at this ⊢
        rw [this]
      | false =>
        have := cells_fold_min s hs
        simp only [Bool.not_false, if_false] at this ⊢
        simp only [Bool.false_eq_true, if_false]
        rw [this]
    · simp only [hs, ne_eq, not_false_eq_true, if_true]
      rw [game_value_terminal maximizing s hs]

end TicTacToe

/-! ## The move chosen by `get_best_move` -/

namespace TicTacToe

open Cell State

theorem get_best_move_cell_eq (fuel : Nat) (x_turn : Bool) (s : TicTacToe)
    (val : Fin 3 × Fin 3 → Int)
    (hrec : ∀ p, s.at_pos p = EMPTY_CELL →
      minimax fuel (!x_turn) (s.set_cell p.1 p.2 (if x_turn then X_CHAR else O_CHAR))
        = some (val p, s.set_cell p.1 p.2 (if x_turn then X_CHAR else O_CHAR)))
    (acc : Int × Nat × Nat) (p : Fin 3 × Fin 3) :
    get_best_move_cell fuel x_turn p.1 p.2 (acc.1, acc.2.1, acc.2.2, s)
      = some ((pick_step x_turn s val acc p).1, (pick_step x_turn s val acc p).2.1,
          (pick_step x_turn s val acc p).2.2, s) := by
  unfold get_best_move_cell pick_step
  by_cases hp : s.at_pos p = EMPTY_CELL
  · have hp' : s.m_board.get p.1 p.2 = EMPTY_CELL := hp
    simp only [hp', hp, if_true, hrec p hp, set_cell_restore s p _ hp]
    split_ifs <;> rfl
  · have hp' : ¬ s.m_board.get p.1 p.2 = EMPTY_CELL := hp
    simp only [hp', hp, if_false]

theorem get_best_move_cells_fold (fuel : Nat) (x_turn : Bool) (s : TicTacToe)
    (val : Fin 3 × Fin 3 → Int)
    (hrec : ∀ p, s.at_pos p = EMPTY_CELL →
      minimax fuel (!x_turn) (s.set_cell p.1 p.2 (if x_turn then X_CHAR else O_CHAR))
        = some (val p, s.set_cell p.1 p.2 (if x_turn then X_CHAR else O_CHAR)))
    (l : List (Fin 3 × Fin 3)) :
    ∀ acc : Int × Nat × Nat,
      l.foldlM (fun a p => get_best_move_cell fuel x_turn p.1 p.2 a) (acc.1, acc.2.1, acc.2.2, s)
        = some ((l.foldl (pick_step x_turn s val) acc).1,
            (l.foldl (pick_step x_turn s val) acc).2.1,
            (l.foldl (pick_step x_turn s val) acc).2.2, s) := by
  induction l with
  | nil => intro acc; rfl
  | cons p l ih =>
    intro acc
    rw [List.foldlM_cons, get_best_move_cell_eq fuel x_turn s val hrec acc p]
    exact ih _

/-- The result of `get_best_move` in terms of the pure scan `pick_step`. -/
theorem get_best_move_eq (fuel : Nat) (x_turn : Bool) (row col : Nat) (s : TicTacToe)
    (hfuel : count_empty s ≤ fuel) :
    get_best_move fuel x_turn row col s
      = some ((cells.foldl (pick_step x_turn s fun p =>
            game_value (!x_turn) (s.set_cell p.1 p.2 (mark_of x_turn)))
          (if x_turn then INT_MIN else INT_MAX, row, col)).2.1,
        (cells.foldl (pick_step x_turn s fun p =>
            game_value (!x_turn) (s.set_cell p.1 p.2 (mark_of x_turn)))
          (if x_turn then INT_MIN else INT_MAX, row, col)).2.2, s) := by
  unfold get_best_move
  rw [scan_eq_cells (fun _row _col acc => get_best_move_cell fuel x_turn _row _col acc)]
  have hrec : ∀ p, s.at_pos p = EMPTY_CELL →
      minimax fuel (!x_turn) (s.set_cell p.1 p.2 (if x_turn then X_CHAR else O_CHAR))
        = some (game_value (!x_turn) (s.set_cell p.1 p.2 (mark_of x_turn)),
            s.set_cell p.1 p.2 (if x_turn then X_CHAR else O_CHAR)) := by
    intro p hp
    have := count_empty_set_cell s p (mark_of x_turn) hp (mark_of_ne_empty x_turn)
    exact minimax_eq fuel (!x_turn) _ (by unfold mark_of at this; omega)
  have h := get_best_move_cells_fold fuel x_turn s _ hrec cells
    (if x_turn then INT_MIN else INT_MAX, row, col)
  simp only at h
  rw [h]

theorem pick_step_max_spec (s : TicTacToe) (val : Fin 3 × Fin 3 → Int)
    (l : List (Fin 3 × Fin 3)) :
    ∀ acc : Int × Nat × Nat,
      (l.foldl (pick_step true s val) acc = acc
          ∧ ∀ p ∈ l, s.at_pos p = EMPTY_CELL → val p ≤ acc.1)
      ∨ ∃ l1 p l2, l = l1 ++ p :: l2 ∧ s.at_pos p = EMPTY_CELL
          ∧ l.foldl (pick_step true s val) acc = (val p, p.1.val, p.2.val)
          ∧ acc.1 < val p
          ∧ (∀ q ∈ l1, s.at_pos q = EMPTY_CELL → val q < val p)
          ∧ (∀ q ∈ l2, s.at_pos q = EMPTY_CELL → val q ≤ val p) := by
  induction l with
  | nil => intro acc; left; simp
  | cons a l ih =>
    intro acc
    simp only [List.foldl_cons]
    by_cases hbetter : s.at_pos a = EMPTY_CELL ∧ acc.1 < val a
    · obtain ⟨ha, hlt⟩ := hbetter
      have hstep : pick_step true s val acc a = (val a, a.1.val, a.2.val) := by
        unfold pick_step
        have hmax : max acc.1 (val a) = val a := max_eq_right (le_of_lt hlt)
        have hne : acc.1 ≠ val a := ne_of_lt hlt
        simp only [ha, if_true, hmax, ne_eq, hne, not_false_eq_true]
      rw [hstep]
      right
      rcases ih (val a, a.1.val, a.2.val) with ⟨h1, h2⟩ | ⟨l1, p, l2, hl, hp, hr, hlt', hl1, hl2⟩
      · exact ⟨[], a, l, rfl, ha, h1, hlt, by simp, h2⟩
      · refine ⟨a :: l1, p, l2, by rw [hl]; rfl, hp, hr, lt_trans hlt hlt', ?_, hl2⟩
        intro q hq hqe
        rcases List.mem_cons.1 hq with rfl | hq
        · exact hlt'
        · exact hl1 q hq hqe
    · have hstep : pick_step true s val acc a = acc := by
        unfold pick_step
        by_cases ha : s.at_pos a = EMPTY_CELL
        · have hle : val a ≤ acc.1 := not_lt.1 fun h => hbetter ⟨ha, h⟩
          have hmax : max acc.1 (val a) = acc.1 := max_eq_left hle
          simp only [ha, if_true, hmax, ne_eq, not_true_eq_false, if_false]
        · simp only [ha, if_false]
      rw [hstep]
      have hale : s.at_pos a = EMPTY_CELL → val a ≤ acc.1 :=
        fun ha => not_lt.1 fun h => hbetter ⟨ha, h⟩
      rcases ih acc with ⟨h1, h2⟩ | ⟨l1, p, l2, hl, hp, hr, hlt', hl1, hl2⟩
      · left
        refine ⟨h1, ?_⟩
        intro q hq hqe
        rcases List.mem_cons.1 hq with rfl | hq
        · exact hale hqe
        · exact h2 q hq hqe
      · right
        refine ⟨a :: l1, p, l2, by rw [hl]; rfl, hp, hr, hlt', ?_, hl2⟩
        intro q hq hqe
        rcases List.mem_cons.1 hq with rfl | hq
        · exact lt_of_le_of_lt (hale hqe) hlt'
        · exact hl1 q hq hqe

theorem pick_step_min_spec (s : TicTacToe) (val : Fin 3 × Fin 3 → Int)
    (l : List (Fin 3 × Fin 3)) :
    ∀ acc : Int × Nat × Nat,
      (l.foldl (pick_step false s val) acc = acc
          ∧ ∀ p ∈ l, s.at_pos p = EMPTY_CELL → acc.1 ≤ val p)
      ∨ ∃ l1 p l2, l = l1 ++ p :: l2 ∧ s.at_pos p = EMPTY_CELL
          ∧ l.foldl (pick_step false s val) acc = (val p, p.1.val, p.2.val)
          ∧ val p < acc.1
          ∧ (∀ q ∈ l1, s.at_pos q = EMPTY_CELL → val p < val q)
          ∧ (∀ q ∈ l2, s.at_pos q = EMPTY_CELL → val p ≤ val q) := by
  induction l with
  | nil => intro acc; left; simp
  | cons a l ih =>
    intro acc
    simp only [List.foldl_cons]
    by_cases hbetter : s.at_pos a = EMPTY_CELL ∧ val a < acc.1
    · obtain ⟨ha, hlt⟩ := hbetter
      have hstep : pick_step false s val acc a = (val a, a.1.val, a.2.val) := by
        unfold pick_step
        have hmin : min acc.1 (val a) = val a := min_eq_right (le_of_lt hlt)
        have hne : acc.1 ≠ val a := ne_of_gt hlt
        simp only [ha, if_true, hmin, ne_eq, hne, not_false_eq_true, Bool.false_eq_true,
          if_false]
      rw [hstep]
      right
      rcases ih (val a, a.1.val, a.2.val) with ⟨h1, h2⟩ | ⟨l1, p, l2, hl, hp, hr, hlt', hl1, hl2⟩
      · exact ⟨[], a, l, rfl, ha, h1, hlt, by simp, h2⟩
      · refine ⟨a :: l1, p, l2, by rw [hl]; rfl, hp, hr, lt_trans hlt' hlt, ?_, hl2⟩
        intro q hq hqe
        rcases List.mem_cons.1 hq with rfl | hq
        · exact hlt'
        · exact hl1 q hq hqe
    · have hstep : pick_step false s val acc a = acc := by
        unfold pick_step
        by_cases ha : s.at_pos a = EMPTY_CELL
        · have hle : acc.1 ≤ val a := not_lt.1 fun h => hbetter ⟨ha, h⟩
          have hmin : min acc.1 (val a) = acc.1 := min_eq_left hle
          simp only [ha, if_true, hmin, ne_eq, not_true_eq_false, if_false, Bool.false_eq_true]
        · simp only [ha, if_false]
      rw [hstep]
      have hale : s.at_pos a = EMPTY_CELL → acc.1 ≤ val a :=
        fun ha => not_lt.1 fun h => hbetter ⟨ha, h⟩
      rcases ih acc with ⟨h1, h2⟩ | ⟨l1, p, l2, hl, hp, hr, hlt', hl1, hl2⟩
      · left
        refine ⟨h1, ?_⟩
        intro q hq hqe
        rcases List.mem_cons.1 hq with rfl | hq
        · exact hale hqe
        · exact h2 q hq hqe
      · right
        refine ⟨a :: l1, p, l2, by rw [hl]; rfl, hp, hr, hlt', ?_, hl2⟩
        intro q hq hqe
        rcases List.mem_cons.1 hq with rfl | hq
        · exact lt_of_lt_of_le hlt' (hale hqe)
        · exact hl1 q hq hqe

set_option maxRecDepth 100000 in
theorem cells_pairwise : cells.Pairwise scan_lt := by decide

theorem cells_split_order (l1 l2 : List (Fin 3 × Fin 3)) (p : Fin 3 × Fin 3)
    (h : cells = l1 ++ p :: l2) : ∀ q ∈ l2, scan_lt p q := by
  have hpw := cells_pairwise
  rw [h] at hpw
  have h2 := (List.pairwise_append.1 hpw).2.1
  exact (List.pairwise_cons.1 h2).1

theorem mem_split (l1 l2 : List (Fin 3 × Fin 3)) (p q : Fin 3 × Fin 3)
    (h : cells = l1 ++ p :: l2) : q ∈ l1 ∨ q = p ∨ q ∈ l2 := by
  have := mem_cells q
  rw [h] at this
  simpa using this

end TicTacToe

namespace TicTacToe

open Cell State

/-- On a board with an empty cell, `get_best_move` leaves the object as it
found it and returns an empty cell whose value is best for the mover and which
comes first in the scan among the empty cells of that value. -/
theorem get_best_move_spec (fuel : Nat) (x_turn : Bool) (row col : Nat) (s : TicTacToe)
    (hfuel : count_empty s ≤ fuel) (hex : ∃ p, s.at_pos p = EMPTY_CELL) :
    ∃ p, get_best_move fuel x_turn row col s = some (p.1.val, p.2.val, s)
      ∧ s.at_pos p = EMPTY_CELL
      ∧ (∀ q, s.at_pos q = EMPTY_CELL →
          if x_turn then
            game_value (!x_turn) (s.set_cell q.1 q.2 (mark_of x_turn))
              ≤ game_value (!x_turn) (s.set_cell p.1 p.2 (mark_of x_turn))
          else
            game_value (!x_turn) (s.set_cell p.1 p.2 (mark_of x_turn))
              ≤ game_value (!x_turn) (s.set_cell q.1 q.2 (mark_of x_turn)))
      ∧ (∀ q, s.at_pos q = EMPTY_CELL →
          game_value (!x_turn) (s.set_cell q.1 q.2 (mark_of x_turn))
            = game_value (!x_turn) (s.set_cell p.1 p.2 (mark_of x_turn)) →
          q = p ∨ scan_lt p q) := by
  rw [get_best_move_eq fuel x_turn row col s hfuel]
  obtain ⟨p0, hp0⟩ := hex
  cases x_turn with
  | true =>
    simp only [if_true]
    rcases pick_step_max_spec s
        (fun p => game_value (!true) (s.set_cell p.1 p.2 (mark_of true))) cells
        (INT_MIN, row, col) with
      ⟨_, h2⟩ | ⟨l1, p, l2, hl, hp, hr, _, hl1, hl2⟩
    · have h := h2 p0 (mem_cells p0) hp0
      have := game_value_ge (!true) (s.set_cell p0.1 p0.2 (mark_of true))
      simp only [INT_MIN] at h
      omega
    · refine ⟨p, by rw [hr], hp, ?_, ?_⟩
      · intro q hq
        rcases mem_split l1 l2 p q hl with h | h | h
        · exact le_of_lt (hl1 q h hq)
        · rw [h]
        · exact hl2 q h hq
      · intro q hq hv
        rcases mem_split l1 l2 p q hl with h | h | h
        · have := hl1 q h hq
          simp only at this
          omega
        · exact Or.inl h
        · exact Or.inr (cells_split_order l1 l2 p hl q h)
  | false =>
    simp only [Bool.false_eq_true, if_false]
    rcases pick_step_min_spec s
        (fun p => game_value (!false) (s.set_cell p.1 p.2 (mark_of false))) cells
        (INT_MAX, row, col) with
      ⟨_, h2⟩ | ⟨l1, p, l2, hl, hp, hr, _, hl1, hl2⟩
    · have h := h2 p0 (mem_cells p0) hp0
      have := game_value_le (!false) (s.set_cell p0.1 p0.2 (mark_of false))
      simp only [INT_MAX] at h
      omega
    · refine ⟨p, by rw [hr], hp, ?_, ?_⟩
      · intro q hq
        rcases mem_split l1 l2 p q hl with h | h | h
        · exact le_of_lt (hl1 q h hq)
        · rw [h]
        · exact hl2 q h hq
      · intro q hq hv
        rcases mem_split l1 l2 p q hl with h | h | h
        · have := hl1 q h hq
          simp only at this
          omega
        · exact Or.inl h
        · exact Or.inr (cells_split_order l1 l2 p hl q h)

theorem post_move_value_eq (fuel : Nat) (x_turn : Bool) (s : TicTacToe) (p : Fin 3 × Fin 3)
    (hfuel : count_empty s ≤ fuel) (hp : s.at_pos p = EMPTY_CELL) :
    post_move_value fuel x_turn s p
      = some (game_value (!x_turn) (s.set_cell p.1 p.2 (mark_of x_turn))) := by
  unfold post_move_value
  have := count_empty_set_cell s p (mark_of x_turn) hp (mark_of_ne_empty x_turn)
  have h := minimax_eq fuel (!x_turn) (s.set_cell p.1 p.2 (mark_of x_turn)) (by omega)
  unfold mark_of at h ⊢
  rw [h]
  rfl

theorem get_best_move_strict_cell_eq (fuel : Nat) (x_turn : Bool) (_row _col : Fin 3)
    (acc : Int × Nat × Nat × TicTacToe) :
    get_best_move_strict_cell fuel x_turn _row _col acc
      = get_best_move_cell fuel x_turn _row _col acc := by
  unfold get_best_move_strict_cell get_best_move_cell
  split
  · split
    · rfl
    · rename_i score s2 _
      cases x_turn with
      | true =>
        rcases lt_or_le acc.1 score with h | h
        · simp [h, max_eq_right (le_of_lt h), ne_of_lt h]
        · simp [not_lt.2 h, max_eq_left h]
      | false =>
        rcases lt_or_le score acc.1 with h | h
        · simp [h, min_eq_right (le_of_lt h), ne_of_gt h]
        · simp [not_lt.2 h, min_eq_left h]
  · rfl

theorem get_best_move_strict_eq (fuel : Nat) (x_turn : Bool) (row col : Nat) (s : TicTacToe) :
    get_best_move_strict fuel x_turn row col s = get_best_move fuel x_turn row col s := by
  unfold get_best_move_strict get_best_move
  have : (fun (acc : Int × Nat × Nat × TicTacToe) (_row : Fin 3) => indices.foldlM
        (fun acc _col => get_best_move_strict_cell fuel x_turn _row _col acc) acc)
      = (fun acc _row => indices.foldlM
        (fun acc _col => get_best_move_cell fuel x_turn _row _col acc) acc) := by
    funext acc _row
    congr 1
    funext acc _col
    exact get_best_move_strict_cell_eq fuel x_turn _row _col acc
  rw [this]

end TicTacToe

/-! ## Values by short-circuit search -/

namespace TicTacToe

open Cell State

theorem force_cell_eq {α : Type} (c : Cell) (k : Cell → α) : force_cell c k = k c := by
  cases c <;> rfl

theorem force_bool_eq {α : Type} (b : Bool) (k : Bool → α) : force_bool b k = k b := by
  cases b <;> rfl

theorem force_state_eq {α : Type} (s : TicTacToe) (k : TicTacToe → α) :
    force_state s k = k s := by
  unfold force_state
  simp only [force_cell_eq, force_bool_eq]

theorem mem_probe_order (p : Fin 3 × Fin 3) : p ∈ probe_order := by
  obtain ⟨r, c⟩ := p
  fin_cases r <;> fin_cases c <;> simp [probe_order]

/-- The short-circuit test decides whether the value reaches the bound. -/
theorem value_at_least_iff (v : Int) (fuel : Nat) :
    ∀ (maximizing : Bool) (s : TicTacToe), count_empty s < fuel →
      (value_at_least v fuel maximizing s = true ↔ v ≤ game_value maximizing s) := by
  induction fuel with
  | zero => intro maximizing s h; omega
  | succ fuel ih =>
    intro maximizing s hfuel
    unfold value_at_least
    rw [force_state_eq]
    by_cases hs : get_state s = PLAYING
    · simp only [hs, ne_eq, not_true_eq_false, if_false]
      cases maximizing with
      | true =>
        simp only [if_true, List.any_eq_true, Bool.and_eq_true, decide_eq_true_eq]
        obtain ⟨⟨p1, hp1, hv1⟩, hle⟩ := game_value_max s hs
        constructor
        · rintro ⟨p, _, hp, hge⟩
          have hc := count_empty_set_cell s p X_CHAR hp (by simp)
          exact le_trans ((ih false _ (by omega)).1 hge) (hle p hp)
        · intro hv
          have hc := count_empty_set_cell s p1 X_CHAR hp1 (by simp)
          exact ⟨p1, mem_probe_order p1, hp1, (ih false _ (by omega)).2 (by rw [← hv1]; exact hv)⟩
      | false =>
        simp only [Bool.false_eq_true, if_false, List.all_eq_true, Bool.or_eq_true,
          Bool.not_eq_true', decide_eq_false_iff_not]
        obtain ⟨⟨p1, hp1, hv1⟩, hle⟩ := game_value_min s hs
        constructor
        · intro h
          have hc := count_empty_set_cell s p1 O_CHAR hp1 (by simp)
          rcases h p1 (mem_probe_order p1) with h' | h'
          · exact absurd hp1 h'
          · rw [hv1]
            exact (ih true _ (by omega)).1 h'
        · intro hv p _
          by_cases hp : s.at_pos p = EMPTY_CELL
          · right
            have hc := count_empty_set_cell s p O_CHAR hp (by simp)
            exact (ih true _ (by omega)).2 (le_trans hv (hle p hp))
          · left
            exact hp
    · simp only [hs, ne_eq, not_false_eq_true, if_true, decide_eq_true_eq]
      rw [game_value_terminal maximizing s hs]

set_option maxRecDepth 1000000 in
theorem new_value_at_least_zero : value_at_least 0 10 true new = true := by decide!

set_option maxRecDepth 1000000 in
theorem new_value_not_at_least_one : value_at_least 1 10 true new = false := by decide!

/-- With best play by both sides the empty board is a draw. -/
theorem game_value_new : game_value true new = 0 := by
  have h0 := (value_at_least_iff 0 10 true new (by decide)).1 new_value_at_least_zero
  have h1 : ¬ (1 ≤ game_value true new) := by
    intro h
    have := (value_at_least_iff 1 10 true new (by decide)).2 h
    rw [new_value_not_at_least_one] at this
    exact Bool.false_ne_true this
  omega

end TicTacToe

/-! ## Play by two searching sides -/

namespace TicTacToe

open Cell State

/-- The value of a position does not depend on the turn flag stored in the
object: the flag passed to the search decides who places. -/
theorem game_value_turn (n : Nat) :
    ∀ (maximizing t t' : Bool) (b : Board), count_empty ⟨t, b⟩ ≤ n →
      game_value maximizing ⟨t, b⟩ = game_value maximizing ⟨t', b⟩ := by
  induction n with
  | zero =>
    intro maximizing t t' b hn
    have hs : get_state ⟨t, b⟩ ≠ PLAYING := by
      intro h
      obtain ⟨p, hp⟩ := ((get_state_playing_iff _).1 h).2
      have := count_empty_pos _ p hp
      omega
    have hs' : get_state ⟨t', b⟩ ≠ PLAYING := hs
    rw [game_value_terminal maximizing _ hs, game_value_terminal maximizing _ hs']
    rfl
  | succ n ih =>
    intro maximizing t t' b hn
    rw [game_value_eq maximizing ⟨t, b⟩, game_value_eq maximizing ⟨t', b⟩]
    have hg : get_state ⟨t', b⟩ = get_state ⟨t, b⟩ := rfl
    have he : evaluate_board ⟨t', b⟩ = evaluate_board ⟨t, b⟩ := rfl
    have hc : empty_cells ⟨t', b⟩ = empty_cells ⟨t, b⟩ := rfl
    rw [hg, he, hc]
    have hX : ((empty_cells ⟨t, b⟩).map fun p =>
          game_value false (set_cell ⟨t, b⟩ p.1 p.2 X_CHAR))
        = ((empty_cells ⟨t, b⟩).map fun p =>
          game_value false (set_cell ⟨t', b⟩ p.1 p.2 X_CHAR)) := by
      apply List.map_congr_left
      intro p hp
      have := count_empty_set_cell ⟨t, b⟩ p X_CHAR ((mem_empty_cells _ p).1 hp) (by simp)
      have h2 : (set_cell ⟨t, b⟩ p.1 p.2 X_CHAR).count_empty ≤ n := by omega
      exact ih false t t' _ h2
    have hO : ((empty_cells ⟨t, b⟩).map fun p =>
          game_value true (set_cell ⟨t, b⟩ p.1 p.2 O_CHAR))
        = ((empty_cells ⟨t, b⟩).map fun p =>
          game_value true (set_cell ⟨t', b⟩ p.1 p.2 O_CHAR)) := by
      apply List.map_congr_left
      intro p hp
      have := count_empty_set_cell ⟨t, b⟩ p O_CHAR ((mem_empty_cells _ p).1 hp) (by simp)
      have h2 : (set_cell ⟨t, b⟩ p.1 p.2 O_CHAR).count_empty ≤ n := by omega
      exact ih true t t' _ h2
    rw [hX, hO]

/-- A move that is best among the empty cells keeps the value of the position. -/
theorem best_move_keeps_value (t : Bool) (s : TicTacToe) (p : Fin 3 × Fin 3)
    (hs : get_state s = PLAYING)
    (hp : s.at_pos p = EMPTY_CELL)
    (hbest : ∀ q, s.at_pos q = EMPTY_CELL →
      if t then
        game_value (!t) (s.set_cell q.1 q.2 (mark_of t))
          ≤ game_value (!t) (s.set_cell p.1 p.2 (mark_of t))
      else
        game_value (!t) (s.set_cell p.1 p.2 (mark_of t))
          ≤ game_value (!t) (s.set_cell q.1 q.2 (mark_of t))) :
    game_value (!t) (s.set_cell p.1 p.2 (mark_of t)) = game_value t s := by
  cases t with
  | true =>
    obtain ⟨⟨p1, hp1, hv1⟩, hle⟩ := game_value_max s hs
    have h1 := hbest p1 hp1
    simp only [if_true] at h1
    have h2 := hle p hp
    apply le_antisymm
    · exact h2
    · rw [hv1]
      exact h1
  | false =>
    obtain ⟨⟨p1, hp1, hv1⟩, hle⟩ := game_value_min s hs
    have h1 := hbest p1 hp1
    simp only [Bool.false_eq_true, if_false] at h1
    have h2 := hle p hp
    apply le_antisymm
    · rw [hv1]
      exact h1
    · exact h2

theorem make_move_fin (s : TicTacToe) (p : Fin 3 × Fin 3) :
    make_move s p.1.val p.2.val
      = some ⟨!s.m_x_turn, (s.set_cell p.1 p.2 (mark_of s.m_x_turn)).m_board⟩ := by
  unfold make_move set_cell mark_of
  simp only [p.1.isLt, p.2.isLt, dite_true, Fin.eta]

/-- Play by two searching sides stops after at most as many moves as there are
empty cells, in a finished game whose payoff is the value of the start. -/
theorem self_play_spec (n : Nat) :
    ∀ s : TicTacToe, count_empty s < n →
      ∃ k s', self_play n s = some (k, s') ∧ k ≤ count_empty s
        ∧ get_state s' ≠ PLAYING ∧ evaluate_board s' = game_value s.m_x_turn s := by
  induction n with
  | zero => intro s h; omega
  | succ n ih =>
    intro s hn
    unfold self_play
    by_cases hs : get_state s = PLAYING
    · obtain ⟨p, hres, hp, hbest, _⟩ := get_best_move_spec 9 s.m_x_turn SIZE_MAX SIZE_MAX s
        (count_empty_le s) ((get_state_playing_iff s).1 hs).2
      have hkeep := best_move_keeps_value s.m_x_turn s p hs hp hbest
      have hc := count_empty_set_cell s p (mark_of s.m_x_turn) hp (mark_of_ne_empty _)
      have hc' : count_empty ⟨!s.m_x_turn, (s.set_cell p.1 p.2 (mark_of s.m_x_turn)).m_board⟩
          = count_empty (s.set_cell p.1 p.2 (mark_of s.m_x_turn)) := rfl
      obtain ⟨k, s', hplay, hk, hfin, hval⟩ :=
        ih ⟨!s.m_x_turn, (s.set_cell p.1 p.2 (mark_of s.m_x_turn)).m_board⟩ (by omega)
      refine ⟨k + 1, s', ?_, by omega, hfin, ?_⟩
      · simp only [hs, if_true, hres, make_move_fin, hplay, Option.map_some']
      · rw [hval, ← hkeep]
        exact game_value_turn _ _ _ _ _ (le_refl _)
    · exact ⟨0, s, by simp only [hs, if_false], Nat.zero_le _, hs,
        (game_value_terminal _ s hs).symm⟩

end TicTacToe

/-! ## Accepted moves and the marks on the board -/

namespace TicTacToe

open Cell State

/-- An accepted move names an empty cell of the grid. -/
theorem is_valid_move_fin (s : TicTacToe) (row col : Nat)
    (h : is_valid_move s row col = true) :
    ∃ p : Fin 3 × Fin 3, row = p.1.val ∧ col = p.2.val ∧ s.at_pos p = EMPTY_CELL := by
  unfold is_valid_move at h
  by_cases hr : row < 3
  · by_cases hc : col < 3
    · simp only [hr, hc, dite_true, decide_eq_true_eq] at h
      exact ⟨(⟨row, hr⟩, ⟨col, hc⟩), rfl, rfl, h⟩
    · simp [hr, hc] at h
  · simp [hr] at h

theorem is_valid_move_of_empty (s : TicTacToe) (p : Fin 3 × Fin 3)
    (h : s.at_pos p = EMPTY_CELL) : is_valid_move s p.1.val p.2.val = true := by
  unfold is_valid_move
  simp only [p.1.isLt, p.2.isLt, dite_true, Fin.eta, decide_eq_true_eq]
  exact h

theorem count_mark_set_cell (s : TicTacToe) (p : Fin 3 × Fin 3) (m m' : Cell)
    (hp : s.at_pos p = EMPTY_CELL) (hm' : m' ≠ EMPTY_CELL) :
    (s.set_cell p.1 p.2 m).count_mark m'
      = s.count_mark m' + (if m = m' then 1 else 0) := by
  obtain ⟨r, c⟩ := p
  obtain ⟨t, ⟨⟨c00, c01, c02⟩, ⟨c10, c11, c12⟩, ⟨c20, c21, c22⟩⟩⟩ := s
  have hm'' : ¬ EMPTY_CELL = m' := fun h => hm' h.symm
  fin_cases r <;> fin_cases c <;>
    simp [count_mark, cells, at_pos, set_cell, Board.get, Board.set, Array3.get, Array3.set,
      List.countP_cons] at hp ⊢ <;> simp [hp, hm''] <;> omega

/-- A line filled with a mark other than the one just placed was already filled
before the move. -/
theorem line_filled_before (s : TicTacToe) (p : Fin 3 × Fin 3) (m m' : Cell)
    (l : (Fin 3 × Fin 3) × (Fin 3 × Fin 3) × (Fin 3 × Fin 3)) (hne : m ≠ m')
    (h : (s.set_cell p.1 p.2 m).line_filled l m') : s.line_filled l m' := by
  unfold line_filled at h ⊢
  simp only [at_pos_set_cell] at h
  obtain ⟨h1, h2, h3⟩ := h
  refine ⟨?_, ?_, ?_⟩
  · by_cases hq : p = l.1
    · simp only [hq, if_true] at h1
      exact absurd h1 hne
    · simpa only [hq, if_false] using h1
  · by_cases hq : p = l.2.1
    · simp only [hq, if_true] at h2
      exact absurd h2 hne
    · simpa only [hq, if_false] using h2
  · by_cases hq : p = l.2.2
    · simp only [hq, if_true] at h3
      exact absurd h3 hne
    · simpa only [hq, if_false] using h3

/-- After a move made on a board in play no line is filled with the mark of the
side that did not move. -/
theorem no_other_line_after_move (s s' : TicTacToe) (row col : Nat)
    (hs : get_state s = PLAYING) (hv : is_valid_move s row col = true)
    (hm : make_move s row col = some s') :
    ∀ l ∈ lines, ¬ s'.line_filled l (other_mark (mark_of s.m_x_turn)) := by
  obtain ⟨p, rfl, rfl, _⟩ := is_valid_move_fin s row col hv
  rw [make_move_fin] at hm
  have hs' : s' = ⟨!s.m_x_turn, (s.set_cell p.1 p.2 (mark_of s.m_x_turn)).m_board⟩ :=
    (Option.some.inj hm).symm
  intro l hl hf
  have hf' : (s.set_cell p.1 p.2 (mark_of s.m_x_turn)).line_filled l
      (other_mark (mark_of s.m_x_turn)) := by
    rw [hs'] at hf
    exact hf
  have hne : mark_of s.m_x_turn ≠ other_mark (mark_of s.m_x_turn) := by
    cases s.m_x_turn <;> simp [mark_of, other_mark]
  have hbefore := line_filled_before s p _ _ l hne hf'
  have hcomplete : s.line_complete l := by
    unfold line_complete
    cases ht : s.m_x_turn
    · rw [ht] at hbefore
      exact Or.inl hbefore
    · rw [ht] at hbefore
      exact Or.inr hbefore
  exact ((get_state_playing_iff s).1 hs).1 l hl hcomplete

set_option maxRecDepth 100000 in
theorem new_no_x_line : ∀ l ∈ lines, ¬ new.line_filled l X_CHAR := by decide

/-- A state of the game never holds a line of X together with a line of O. -/
theorem game_reach_one_winner (s : TicTacToe) (h : GameReach s) :
    ¬ ((∃ l ∈ lines, s.line_filled l X_CHAR) ∧ (∃ l ∈ lines, s.line_filled l O_CHAR)) := by
  cases h with
  | start =>
    rintro ⟨⟨l, hl, hf⟩, _⟩
    exact new_no_x_line l hl hf
  | move s0 _ row col _ hs hv hm =>
    have hno := no_other_line_after_move s0 s row col hs hv hm
    rintro ⟨⟨lx, hlx, hfx⟩, ⟨lo, hlo, hfo⟩⟩
    cases ht : s0.m_x_turn
    · rw [ht] at hno
      exact hno lx hlx hfx
    · rw [ht] at hno
      exact hno lo hlo hfo

theorem get_state_in_order_lines (s : TicTacToe) : get_state_in_order lines s = get_state s := by
  rw [get_state_eq]
  rfl

/-- On a board that does not hold lines of both marks, the order of the line
checks does not change the result. -/
theorem get_state_in_order_perm (s : TicTacToe)
    (ls : List ((Fin 3 × Fin 3) × (Fin 3 × Fin 3) × (Fin 3 × Fin 3)))
    (hperm : ls.Perm lines)
    (hone : ¬ ((∃ l ∈ lines, s.line_filled l X_CHAR)
      ∧ (∃ l ∈ lines, s.line_filled l O_CHAR))) :
    get_state_in_order ls s = get_state s := by
  rw [← get_state_in_order_lines]
  unfold get_state_in_order
  cases h1 : ls.find? (fun l => decide (s.line_complete l)) with
  | none =>
    have hnone : lines.find? (fun l => decide (s.line_complete l)) = none := by
      rw [List.find?_eq_none] at h1 ⊢
      intro l hl
      exact h1 l (hperm.mem_iff.2 hl)
    rw [hnone]
  | some l1 =>
    have hl1 : l1 ∈ lines := hperm.mem_iff.1 (List.mem_of_find?_eq_some h1)
    have hc1 : s.line_complete l1 := by simpa using List.find?_some h1
    cases h2 : lines.find? (fun l => decide (s.line_complete l)) with
    | none =>
      rw [List.find?_eq_none] at h2
      exact absurd (by simpa using hc1) (h2 l1 hl1)
    | some l2 =>
      have hl2 : l2 ∈ lines := List.mem_of_find?_eq_some h2
      have hc2 : s.line_complete l2 := by simpa using List.find?_some h2
      simp only
      rcases hc1 with hx1 | ho1
      · rcases hc2 with hx2 | ho2
        · rw [hx1.1, hx2.1]
        · exact absurd ⟨⟨l1, hl1, hx1⟩, ⟨l2, hl2, ho2⟩⟩ hone
      · rcases hc2 with hx2 | ho2
        · exact absurd ⟨⟨l2, hl2, hx2⟩, ⟨l1, hl1, ho1⟩⟩ hone
        · rw [ho1.1, ho2.1]

end TicTacToe

namespace TicTacToe

open Cell State

/-- The board with rows `X O -`, `O X -`, `- - -` arises in a game: X `(0, 0)`,
O `(0, 1)`, X `(1, 1)`, O `(1, 0)`. -/
theorem board_slow_win_reach : GameReach board_slow_win := by
  have h1 : GameReach ⟨false, ⟨⟨X_CHAR, EMPTY_CELL, EMPTY_CELL⟩,
      ⟨EMPTY_CELL, EMPTY_CELL, EMPTY_CELL⟩, ⟨EMPTY_CELL, EMPTY_CELL, EMPTY_CELL⟩⟩⟩ :=
    GameReach.move new _ 0 0 GameReach.start (by decide) (by decide) (by decide)
  have h2 : GameReach ⟨true, ⟨⟨X_CHAR, O_CHAR, EMPTY_CELL⟩,
      ⟨EMPTY_CELL, EMPTY_CELL, EMPTY_CELL⟩, ⟨EMPTY_CELL, EMPTY_CELL, EMPTY_CELL⟩⟩⟩ :=
    GameReach.move _ _ 0 1 h1 (by decide) (by decide) (by decide)
  have h3 : GameReach ⟨false, ⟨⟨X_CHAR, O_CHAR, EMPTY_CELL⟩,
      ⟨EMPTY_CELL, X_CHAR, EMPTY_CELL⟩, ⟨EMPTY_CELL, EMPTY_CELL, EMPTY_CELL⟩⟩⟩ :=
    GameReach.move _ _ 1 1 h2 (by decide) (by decide) (by decide)
  exact GameReach.move _ _ 1 0 h3 (by decide) (by decide) (by decide)

end TicTacToe

/-! ## Moves of X fixed by the first empty cell -/

namespace TicTacToe

open Cell State

/-- When the first empty cell of the scan has a value that no empty cell
exceeds, `get_best_move` for X returns that cell. -/
theorem get_best_move_x_first_cell (fuel row col : Nat) (s : TicTacToe) (p : Fin 3 × Fin 3)
    (hfuel : count_empty s ≤ fuel) (hp : s.at_pos p = EMPTY_CELL)
    (hfirst : ∀ q, s.at_pos q = EMPTY_CELL → ¬ scan_lt q p)
    (hbest : ∀ q, s.at_pos q = EMPTY_CELL →
      game_value false (s.set_cell q.1 q.2 X_CHAR)
        ≤ game_value false (s.set_cell p.1 p.2 X_CHAR)) :
    get_best_move fuel true row col s = some (p.1.val, p.2.val, s) := by
  obtain ⟨p', hres, hp', hbest', hfirst'⟩ := get_best_move_spec fuel true row col s hfuel ⟨p, hp⟩
  have h1 := hbest' p hp
  simp only [if_true] at h1
  have h2 := hbest p' hp'
  have heq : game_value (!true) (s.set_cell p.1 p.2 (mark_of true))
      = game_value (!true) (s.set_cell p'.1 p'.2 (mark_of true)) := le_antisymm h1 h2
  rcases hfirst' p hp heq with h | h
  · rw [hres, h]
  · exact absurd h (hfirst p' hp')

/-- A position that passes the short-circuit test at bound 1 with O to place
has value 1. -/
theorem game_value_of_forced_win (s : TicTacToe)
    (h : value_at_least 1 10 false s = true) : game_value false s = 1 := by
  have h1 := (value_at_least_iff 1 10 false s (by have := count_empty_le s; omega)).1 h
  have h2 := game_value_le false s
  omega

set_option maxRecDepth 1000000 in
theorem board_block_forced_win :
    value_at_least 1 10 false (board_block.set_cell 0 2 X_CHAR) = true := by decide!

set_option maxRecDepth 1000000 in
theorem board_slow_win_forced_win :
    value_at_least 1 10 false (board_slow_win.set_cell 0 2 X_CHAR) = true := by decide!

set_option maxRecDepth 100000 in
theorem board_block_first : ∀ q : Fin 3 × Fin 3, board_block.at_pos q = EMPTY_CELL →
    ¬ scan_lt q (0, 2) := by decide

set_option maxRecDepth 100000 in
theorem board_slow_win_first : ∀ q : Fin 3 × Fin 3, board_slow_win.at_pos q = EMPTY_CELL →
    ¬ scan_lt q (0, 2) := by decide

end TicTacToe

/-! ## The game loop against a human -/

namespace TicTacToe

open Cell State

theorem read_move_valid (s : TicTacToe) (inputs rest : List (Nat × Nat)) (row col : Nat)
    (h : read_move s inputs = some ((row, col), rest)) : is_valid_move s row col = true := by
  induction inputs with
  | nil => simp [read_move] at h
  | cons e inputs ih =>
    obtain ⟨r, c⟩ := e
    unfold read_move at h
    by_cases hv : is_valid_move s r c = true
    · simp only [hv, if_true, Option.some.injEq, Prod.mk.injEq] at h
      obtain ⟨⟨rfl, rfl⟩, _⟩ := h
      exact hv
    · simp only [hv, if_false] at h
      exact ih h

/-- One turn of the loop: the state after the move, the entries left, and the
facts the proofs need about the move. -/
theorem play_loop_turn (n : Nat) (inputs : List (Nat × Nat)) (s s' : TicTacToe)
    (hs : get_state s = PLAYING) (h : play_loop (n + 1) inputs s = some s') :
    ∃ (p : Fin 3 × Fin 3) (rest : List (Nat × Nat)),
      s.at_pos p = EMPTY_CELL
      ∧ play_loop n rest ⟨!s.m_x_turn, (s.set_cell p.1 p.2 (mark_of s.m_x_turn)).m_board⟩
          = some s'
      ∧ (∀ m : Nat, play_loop (m + 1) inputs s
          = play_loop m rest ⟨!s.m_x_turn, (s.set_cell p.1 p.2 (mark_of s.m_x_turn)).m_board⟩)
      ∧ (s.m_x_turn = true →
          game_value false (s.set_cell p.1 p.2 X_CHAR) = game_value true s) := by
  cases ht : s.m_x_turn with
  | true =>
    obtain ⟨p, hres, hp, hbest, _⟩ := get_best_move_spec 9 true SIZE_MAX SIZE_MAX s
      (count_empty_le s) ((get_state_playing_iff s).1 hs).2
    have hkeep := best_move_keeps_value true s p hs hp hbest
    have hmove := make_move_fin s p
    rw [ht] at hmove
    have hstep : ∀ m : Nat, play_loop (m + 1) inputs s
        = play_loop m inputs ⟨!true, (s.set_cell p.1 p.2 (mark_of true)).m_board⟩ := by
      intro m
      rw [play_loop]
      simp only [hs, ht, if_true, hres, hmove]
    refine ⟨p, inputs, hp, ?_, hstep, fun _ => hkeep⟩
    rw [← hstep n]
    exact h
  | false =>
    rw [play_loop] at h
    simp only [hs, ht, if_true, Bool.false_eq_true, if_false] at h
    cases hr : read_move s inputs with
    | none => simp [hr] at h
    | some res =>
      obtain ⟨⟨row, col⟩, rest⟩ := res
      obtain ⟨p, rfl, rfl, hp⟩ := is_valid_move_fin s row col (read_move_valid s inputs rest _ _ hr)
      have hmove := make_move_fin s p
      rw [ht] at hmove
      have hstep : ∀ m : Nat, play_loop (m + 1) inputs s
          = play_loop m rest ⟨!false, (s.set_cell p.1 p.2 (mark_of false)).m_board⟩ := by
        intro m
        rw [play_loop]
        simp only [hs, ht, if_true, Bool.false_eq_true, if_false, hr, hmove]
      refine ⟨p, rest, hp, ?_, hstep, fun hx => absurd hx (by simp)⟩
      rw [hr] at h
      simp only [hmove] at h
      exact h

/-- A loop started at a position whose value for the side to move is not
negative ends at a finished board with a payoff that is not negative. -/
theorem play_loop_safe (n : Nat) :
    ∀ (inputs : List (Nat × Nat)) (s s' : TicTacToe),
      0 ≤ game_value s.m_x_turn s → play_loop n inputs s = some s' →
      get_state s' ≠ PLAYING ∧ 0 ≤ evaluate_board s' := by
  induction n with
  | zero => intro inputs s s' _ h; simp [play_loop] at h
  | succ n ih =>
    intro inputs s s' hval h
    by_cases hs : get_state s = PLAYING
    · obtain ⟨p, rest, hp, hnext, _, hkeep⟩ := play_loop_turn n inputs s s' hs h
      refine ih rest _ s' ?_ hnext
      show 0 ≤ game_value (!s.m_x_turn)
        ⟨!s.m_x_turn, (s.set_cell p.1 p.2 (mark_of s.m_x_turn)).m_board⟩
      rw [game_value_turn _ (!s.m_x_turn) (!s.m_x_turn) s.m_x_turn _ (le_refl _)]
      have hsame : (⟨s.m_x_turn, (s.set_cell p.1 p.2 (mark_of s.m_x_turn)).m_board⟩ : TicTacToe)
          = s.set_cell p.1 p.2 (mark_of s.m_x_turn) := rfl
      rw [hsame]
      cases ht : s.m_x_turn with
      | true =>
        rw [ht] at hval
        have := hkeep ht
        simp only [Bool.not_true, mark_of, if_true]
        omega
      | false =>
        rw [ht] at hval
        have := (game_value_min s hs).2 p hp
        simp only [Bool.not_false, mark_of, Bool.false_eq_true, if_false]
        omega
    · rw [play_loop] at h
      simp only [hs, if_false, Option.some.injEq] at h
      subst h
      refine ⟨hs, ?_⟩
      rw [game_value_terminal _ s hs] at hval
      exact hval

/-- The loop makes at most as many moves as there are empty cells: if it ends
under some bound, it ends in the same state under every bound above the number
of empty cells. -/
theorem play_loop_fuel (n : Nat) :
    ∀ (m : Nat) (inputs : List (Nat × Nat)) (s s' : TicTacToe),
      play_loop n inputs s = some s' → count_empty s < m →
      play_loop m inputs s = some s' := by
  induction n with
  | zero => intro m inputs s s' h; simp [play_loop] at h
  | succ n ih =>
    intro m inputs s s' h hm
    cases m with
    | zero => omega
    | succ m =>
      by_cases hs : get_state s = PLAYING
      · obtain ⟨p, rest, hp, hnext, hstep, _⟩ := play_loop_turn n inputs s s' hs h
        rw [hstep m]
        refine ih m rest _ s' hnext ?_
        have hc := count_empty_set_cell s p (mark_of s.m_x_turn) hp (mark_of_ne_empty _)
        have hc' : count_empty ⟨!s.m_x_turn, (s.set_cell p.1 p.2 (mark_of s.m_x_turn)).m_board⟩
            = count_empty (s.set_cell p.1 p.2 (mark_of s.m_x_turn)) := rfl
        omega
      · rw [play_loop] at h ⊢
        simp only [hs, if_false] at h ⊢
        exact h

theorem play_loop_stop (n : Nat) (inputs : List (Nat × Nat)) (s : TicTacToe)
    (hs : get_state s ≠ PLAYING) : play_loop (n + 1) inputs s = some s := by
  rw [play_loop]
  simp only [hs, if_false]

theorem play_loop_x_step (n : Nat) (inputs : List (Nat × Nat)) (s s2 : TicTacToe)
    (row col : Nat) (hs : get_state s = PLAYING) (ht : s.m_x_turn = true)
    (hg : get_best_move 9 true SIZE_MAX SIZE_MAX s = some (row, col, s))
    (hm : make_move s row col = some s2) :
    play_loop (n + 1) inputs s = play_loop n inputs s2 := by
  rw [play_loop]
  simp only [hs, ht, if_true, hg, hm]

theorem play_loop_o_step (n : Nat) (inputs rest : List (Nat × Nat)) (s s2 : TicTacToe)
    (row col : Nat) (hs : get_state s = PLAYING) (ht : s.m_x_turn = false)
    (hr : read_move s inputs = some ((row, col), rest))
    (hm : make_move s row col = some s2) :
    play_loop (n + 1) inputs s = play_loop n rest s2 := by
  rw [play_loop]
  simp only [hs, ht, if_true, Bool.false_eq_true, if_false, hr, hm]

end TicTacToe

namespace TicTacToe

open Cell State

set_option maxRecDepth 1000000 in
theorem corner_not_losing :
    value_at_least 0 10 false (new.set_cell 0 0 X_CHAR) = true := by decide!

set_option maxRecDepth 1000000 in
theorem second_move_forced_win :
    value_at_least 1 10 false
      (set_cell ⟨true, ⟨⟨X_CHAR, EMPTY_CELL, EMPTY_CELL⟩, ⟨O_CHAR, EMPTY_CELL, EMPTY_CELL⟩,
        ⟨EMPTY_CELL, EMPTY_CELL, EMPTY_CELL⟩⟩⟩ 0 1 X_CHAR) = true := by decide!

set_option maxRecDepth 1000000 in
theorem third_move_forced_win :
    value_at_least 1 10 false (board_take_win.set_cell 0 2 X_CHAR) = true := by decide!

set_option maxRecDepth 100000 in
theorem new_first : ∀ q : Fin 3 × Fin 3, new.at_pos q = EMPTY_CELL → ¬ scan_lt q (0, 0) := by
  decide

set_option maxRecDepth 100000 in
theorem second_move_first : ∀ q : Fin 3 × Fin 3,
    at_pos ⟨true, ⟨⟨X_CHAR, EMPTY_CELL, EMPTY_CELL⟩, ⟨O_CHAR, EMPTY_CELL, EMPTY_CELL⟩,
      ⟨EMPTY_CELL, EMPTY_CELL, EMPTY_CELL⟩⟩⟩ q = EMPTY_CELL → ¬ scan_lt q (0, 1) := by
  decide

set_option maxRecDepth 100000 in
theorem board_take_win_first : ∀ q : Fin 3 × Fin 3,
    board_take_win.at_pos q = EMPTY_CELL → ¬ scan_lt q (0, 2) := by
  decide

/-- A game of the loop: X opens at `(0, 0)`; the human enters `(0, 0)`, which is
rejected, then `(1, 0)`; X plays `(0, 1)`; the human enters `(1, 1)`; X
completes row 0 and the loop ends. -/
theorem play_loop_example :
    play_loop 10 [(0, 0), (1, 0), (1, 1)] new
      = some ⟨false, ⟨⟨X_CHAR, X_CHAR, X_CHAR⟩, ⟨O_CHAR, O_CHAR, EMPTY_CELL⟩,
          ⟨EMPTY_CELL, EMPTY_CELL, EMPTY_CELL⟩⟩⟩ := by
  have g0 : get_best_move 9 true SIZE_MAX SIZE_MAX new = some (0, 0, new) := by
    have hge := (value_at_least_iff 0 10 false (new.set_cell 0 0 X_CHAR) (by decide)).1
      corner_not_losing
    have h := get_best_move_x_first_cell 9 SIZE_MAX SIZE_MAX new (0, 0)
      (by decide) (by decide) new_first
      (by
        intro q hq
        have h1 := (game_value_max new (by decide)).2 q hq
        rw [game_value_new] at h1
        simp only at hge ⊢
        omega)
    rw [h]
    rfl
  have g2 : get_best_move 9 true SIZE_MAX SIZE_MAX
      ⟨true, ⟨⟨X_CHAR, EMPTY_CELL, EMPTY_CELL⟩, ⟨O_CHAR, EMPTY_CELL, EMPTY_CELL⟩,
        ⟨EMPTY_CELL, EMPTY_CELL, EMPTY_CELL⟩⟩⟩
      = some (0, 1, ⟨true, ⟨⟨X_CHAR, EMPTY_CELL, EMPTY_CELL⟩,
        ⟨O_CHAR, EMPTY_CELL, EMPTY_CELL⟩, ⟨EMPTY_CELL, EMPTY_CELL, EMPTY_CELL⟩⟩⟩) := by
    have hv := game_value_of_forced_win _ second_move_forced_win
    have h := get_best_move_x_first_cell 9 SIZE_MAX SIZE_MAX
      ⟨true, ⟨⟨X_CHAR, EMPTY_CELL, EMPTY_CELL⟩, ⟨O_CHAR, EMPTY_CELL, EMPTY_CELL⟩,
        ⟨EMPTY_CELL, EMPTY_CELL, EMPTY_CELL⟩⟩⟩ (0, 1)
      (by decide) (by decide) second_move_first
      (by
        intro q _
        have := game_value_le false (set_cell ⟨true, ⟨⟨X_CHAR, EMPTY_CELL, EMPTY_CELL⟩,
          ⟨O_CHAR, EMPTY_CELL, EMPTY_CELL⟩, ⟨EMPTY_CELL, EMPTY_CELL, EMPTY_CELL⟩⟩⟩
          q.1 q.2 X_CHAR)
        simp only at hv ⊢
        omega)
    rw [h]
    rfl
  have g4 : get_best_move 9 true SIZE_MAX SIZE_MAX board_take_win
      = some (0, 2, board_take_win) := by
    have hv := game_value_of_forced_win _ third_move_forced_win
    have h := get_best_move_x_first_cell 9 SIZE_MAX SIZE_MAX board_take_win (0, 2)
      (by decide) (by decide) board_take_win_first
      (by
        intro q _
        have := game_value_le false (board_take_win.set_cell q.1 q.2 X_CHAR)
        simp only at hv ⊢
        omega)
    rw [h]
    rfl
  have e1 := play_loop_x_step 9 [(0, 0), (1, 0), (1, 1)] new
    ⟨false, ⟨⟨X_CHAR, EMPTY_CELL, EMPTY_CELL⟩, ⟨EMPTY_CELL, EMPTY_CELL, EMPTY_CELL⟩,
      ⟨EMPTY_CELL, EMPTY_CELL, EMPTY_CELL⟩⟩⟩ 0 0 (by decide) rfl g0 rfl
  have e2 := play_loop_o_step 8 [(0, 0), (1, 0), (1, 1)] [(1, 1)]
    ⟨false, ⟨⟨X_CHAR, EMPTY_CELL, EMPTY_CELL⟩, ⟨EMPTY_CELL, EMPTY_CELL, EMPTY_CELL⟩,
      ⟨EMPTY_CELL, EMPTY_CELL, EMPTY_CELL⟩⟩⟩
    ⟨true, ⟨⟨X_CHAR, EMPTY_CELL, EMPTY_CELL⟩, ⟨O_CHAR, EMPTY_CELL, EMPTY_CELL⟩,
      ⟨EMPTY_CELL, EMPTY_CELL, EMPTY_CELL⟩⟩⟩ 1 0 (by decide) rfl (by decide) rfl
  have e3 := play_loop_x_step 7 [(1, 1)]
    ⟨true, ⟨⟨X_CHAR, EMPTY_CELL, EMPTY_CELL⟩, ⟨O_CHAR, EMPTY_CELL, EMPTY_CELL⟩,
      ⟨EMPTY_CELL, EMPTY_CELL, EMPTY_CELL⟩⟩⟩
    ⟨false, ⟨⟨X_CHAR, X_CHAR, EMPTY_CELL⟩, ⟨O_CHAR, EMPTY_CELL, EMPTY_CELL⟩,
      ⟨EMPTY_CELL, EMPTY_CELL, EMPTY_CELL⟩⟩⟩ 0 1 (by decide) rfl g2 rfl
  have e4 := play_loop_o_step 6 [(1, 1)] []
    ⟨false, ⟨⟨X_CHAR, X_CHAR, EMPTY_CELL⟩, ⟨O_CHAR, EMPTY_CELL, EMPTY_CELL⟩,
      ⟨EMPTY_CELL, EMPTY_CELL, EMPTY_CELL⟩⟩⟩ board_take_win 1 1 (by decide) rfl (by decide) rfl
  have e5 := play_loop_x_step 5 [] board_take_win
    ⟨false, ⟨⟨X_CHAR, X_CHAR, X_CHAR⟩, ⟨O_CHAR, O_CHAR, EMPTY_CELL⟩,
      ⟨EMPTY_CELL, EMPTY_CELL, EMPTY_CELL⟩⟩⟩ 0 2 (by decide) rfl g4 rfl
  have e6 := play_loop_stop 4 []
    ⟨false, ⟨⟨X_CHAR, X_CHAR, X_CHAR⟩, ⟨O_CHAR, O_CHAR, EMPTY_CELL⟩,
      ⟨EMPTY_CELL, EMPTY_CELL, EMPTY_CELL⟩⟩⟩ (by decide)
  exact e1.trans (e2.trans (e3.trans (e4.trans (e5.trans e6))))

end TicTacToe

/-! ## The claims -/

namespace TicTacToe

open Cell State

/-- C1: on every board and for either flag, the in-place `minimax` (place the
mark, recurse, restore), given more fuel than there are empty cells, returns the
value `game_value` of the reference recursion on immutable boards. -/
theorem minimax_refines_game_value (s : TicTacToe) (maximizing : Bool) (fuel : Nat)
    (hfuel : count_empty s < fuel) :
    (minimax fuel maximizing s).map Prod.fst = some (game_value maximizing s) := by
  rw [minimax_eq fuel maximizing s hfuel]
  rfl

/-- C1, on the empty board with fuel 10. -/
theorem minimax_refines_game_value_witness :
    count_empty new < 10 ∧ (minimax 10 true new).map Prod.fst = some (game_value true new) :=
  ⟨by decide, minimax_refines_game_value new true 10 (by decide)⟩

/-- C2: on a board with an empty cell `get_best_move(x_turn)` returns an empty
cell `p` whose post-move score `minimax(!x_turn)` is best for `x_turn` (no empty
cell scores higher for X, lower for O), and every empty cell with the same score
is `p` or comes after `p` in the row-major scan; the scan with the
strict-improvement test returns the same result as the code's
"best score changed" test. -/
theorem get_best_move_first_best (s : TicTacToe) (x_turn : Bool) (row col fuel : Nat)
    (hfuel : count_empty s ≤ fuel) (hex : ∃ p, s.at_pos p = EMPTY_CELL) :
    ∃ (p : Fin 3 × Fin 3) (v : Int),
      get_best_move fuel x_turn row col s = some (p.1.val, p.2.val, s)
      ∧ s.at_pos p = EMPTY_CELL
      ∧ post_move_value fuel x_turn s p = some v
      ∧ (∀ q, s.at_pos q = EMPTY_CELL →
          ∃ w, post_move_value fuel x_turn s q = some w
            ∧ (if x_turn then w ≤ v else v ≤ w)
            ∧ (w = v → q = p ∨ scan_lt p q))
      ∧ get_best_move_strict fuel x_turn row col s = get_best_move fuel x_turn row col s := by
  obtain ⟨p, hres, hp, hbest, hfirst⟩ := get_best_move_spec fuel x_turn row col s hfuel hex
  refine ⟨p, _, hres, hp, post_move_value_eq fuel x_turn s p hfuel hp, ?_,
    get_best_move_strict_eq fuel x_turn row col s⟩
  intro q hq
  exact ⟨_, post_move_value_eq fuel x_turn s q hfuel hq, hbest q hq, hfirst q hq⟩

/-- C2, on the empty board with X to choose. -/
theorem get_best_move_first_best_witness :
    ∃ (p : Fin 3 × Fin 3) (v : Int),
      get_best_move 9 true 7 7 new = some (p.1.val, p.2.val, new)
      ∧ new.at_pos p = EMPTY_CELL
      ∧ post_move_value 9 true new p = some v
      ∧ (∀ q, new.at_pos q = EMPTY_CELL →
          ∃ w, post_move_value 9 true new q = some w
            ∧ (if true then w ≤ v else v ≤ w)
            ∧ (w = v → q = p ∨ scan_lt p q))
      ∧ get_best_move_strict 9 true 7 7 new = get_best_move 9 true 7 7 new :=
  get_best_move_first_best new true 7 7 9 (by decide) ⟨(0, 0), by decide⟩

/-- C3: on a board whose state is `PLAYING`, `get_best_move` (for the side to
move, and for the other side too) writes coordinates inside the grid that name
an empty cell, so `is_valid_move` accepts them, whatever the output variables
held before the call. -/
theorem get_best_move_valid (s : TicTacToe) (x_turn : Bool) (row col fuel : Nat)
    (hfuel : count_empty s ≤ fuel) (hs : get_state s = PLAYING) :
    ∃ r c, get_best_move fuel x_turn row col s = some (r, c, s)
      ∧ r < 3 ∧ c < 3 ∧ is_valid_move s r c = true := by
  obtain ⟨p, hres, hp, _, _⟩ := get_best_move_spec fuel x_turn row col s hfuel
    ((get_state_playing_iff s).1 hs).2
  refine ⟨p.1.val, p.2.val, hres, p.1.isLt, p.2.isLt, ?_⟩
  unfold is_valid_move
  simp only [p.1.isLt, p.2.isLt, dite_true, Fin.eta, decide_eq_true_eq]
  exact hp

/-- C3, on the empty board with both output variables at the largest `size_t`. -/
theorem get_best_move_valid_witness :
    ∃ r c, get_best_move 9 new.m_x_turn 18446744073709551615 18446744073709551615 new
        = some (r, c, new)
      ∧ r < 3 ∧ c < 3 ∧ is_valid_move new r c = true :=
  get_best_move_valid new new.m_x_turn 18446744073709551615 18446744073709551615 9
    (by decide) (by decide)

/-- C4: from the empty board with X to move, the game in which both sides play
the move of `get_best_move(m_x_turn)` through `make_move` while `get_state` is
`PLAYING` leaves the loop after at most 9 moves, in state `DRAW`. -/
theorem self_play_draw :
    ∃ k s', self_play 10 new = some (k, s') ∧ k ≤ 9 ∧ get_state s' = DRAW := by
  obtain ⟨k, s', hplay, hk, hfin, hval⟩ := self_play_spec 10 new (by decide)
  refine ⟨k, s', hplay, by simpa [show count_empty new = 9 from by decide] using hk, ?_⟩
  have hv : evaluate_board s' = 0 := by
    rw [hval]
    exact game_value_new
  unfold evaluate_board at hv
  cases hg : get_state s' with
  | PLAYING => exact absurd hg hfin
  | X_WINS => rw [hg] at hv; simp at hv
  | O_WINS => rw [hg] at hv; simp at hv
  | DRAW => rfl

/-- C5: if some line of the board is filled with three copies of a mark `m`
(X or O) and no line is filled with the other mark, `get_state` returns the win
of `m`, whatever the remaining cells hold (empty, or so that the board is full). -/
theorem get_state_win_of_filled_line (s : TicTacToe) (m : Cell)
    (hm : m = X_CHAR ∨ m = O_CHAR)
    (h : ∃ l ∈ lines, s.line_filled l m)
    (hno : ∀ l ∈ lines, ¬ s.line_filled l (other_mark m)) :
    get_state s = win_of m := by
  obtain ⟨l0, hl0, hf0⟩ := h
  have hc0 : s.line_complete l0 := by
    rcases hm with rfl | rfl
    · exact Or.inl hf0
    · exact Or.inr hf0
  obtain ⟨l, hl, hc, hs⟩ := get_state_of_line s ⟨l0, hl0, hc0⟩
  rw [hs]
  rcases hc with hx | ho
  · rcases hm with rfl | rfl
    · rw [hx.1]
    · exact absurd hx (hno l hl)
  · rcases hm with rfl | rfl
    · exact absurd ho (hno l hl)
    · rw [ho.1]

set_option maxRecDepth 100000 in
/-- C5, at two boards: row 0 all X with every other cell empty gives `X_WINS`,
and a full board whose column 0 is all O (and no X line) gives `O_WINS`, not `DRAW`. -/
theorem get_state_win_of_filled_line_witness :
    get_state ⟨true, ⟨⟨X_CHAR, X_CHAR, X_CHAR⟩, ⟨EMPTY_CELL, EMPTY_CELL, EMPTY_CELL⟩,
        ⟨EMPTY_CELL, EMPTY_CELL, EMPTY_CELL⟩⟩⟩ = X_WINS
    ∧ get_state ⟨false, ⟨⟨O_CHAR, X_CHAR, X_CHAR⟩, ⟨O_CHAR, X_CHAR, O_CHAR⟩,
        ⟨O_CHAR, O_CHAR, X_CHAR⟩⟩⟩ = O_WINS :=
  ⟨get_state_win_of_filled_line _ X_CHAR (Or.inl rfl) (by decide) (by decide),
   get_state_win_of_filled_line _ O_CHAR (Or.inr rfl) (by decide) (by decide)⟩

/-- C6: the boards on which `get_state` returns `DRAW` or `PLAYING` are exactly
those with no line of three equal marks; on such a board the result is `DRAW`
when no cell is empty and `PLAYING` when some cell is empty. -/
theorem get_state_draw_or_playing (s : TicTacToe) :
    ((∀ l ∈ lines, ¬ s.line_complete l) ↔ (get_state s = DRAW ∨ get_state s = PLAYING))
    ∧ ((∀ l ∈ lines, ¬ s.line_complete l) → (∀ p, s.at_pos p ≠ EMPTY_CELL) →
        get_state s = DRAW)
    ∧ ((∀ l ∈ lines, ¬ s.line_complete l) → (∃ p, s.at_pos p = EMPTY_CELL) →
        get_state s = PLAYING) := by
  refine ⟨⟨?_, ?_⟩, ?_, ?_⟩
  · intro h
    rw [get_state_of_no_line s h]
    cases any_space_left s <;> simp
  · intro h l hl hc
    obtain ⟨l', _, _, hs⟩ := get_state_of_line s ⟨l, hl, hc⟩
    rcases h with h | h
    · rw [h] at hs
      exact (win_of_ne _).2 hs.symm
    · rw [h] at hs
      exact (win_of_ne _).1 hs.symm
  · intro h hfull
    rw [get_state_of_no_line s h]
    have : any_space_left s = false := by
      cases ha : any_space_left s with
      | false => rfl
      | true =>
        obtain ⟨p, hp⟩ := (any_space_left_iff s).1 ha
        exact absurd hp (hfull p)
    simp [this]
  · intro h hp
    exact (get_state_playing_iff s).2 ⟨h, hp⟩

set_option maxRecDepth 100000 in
/-- C6, at two boards: a full board with no three in a row is a `DRAW`, and the
same board with one cell emptied is `PLAYING`. -/
theorem get_state_draw_or_playing_witness :
    get_state ⟨true, ⟨⟨X_CHAR, O_CHAR, X_CHAR⟩, ⟨X_CHAR, O_CHAR, O_CHAR⟩,
        ⟨O_CHAR, X_CHAR, X_CHAR⟩⟩⟩ = DRAW
    ∧ get_state ⟨true, ⟨⟨X_CHAR, O_CHAR, X_CHAR⟩, ⟨X_CHAR, O_CHAR, O_CHAR⟩,
        ⟨O_CHAR, X_CHAR, EMPTY_CELL⟩⟩⟩ = PLAYING :=
  ⟨(get_state_draw_or_playing _).2.1 (by decide) (by decide),
   (get_state_draw_or_playing _).2.2 (by decide) (by decide)⟩

/-- C7: with more fuel than empty cells, `minimax(flag)` and
`get_best_move(flag)` return and leave the object unchanged: the same nine
cells and the same `m_x_turn` as before the call. -/
theorem search_restores_state (s : TicTacToe) (flag : Bool) (row col fuel : Nat)
    (hfuel : count_empty s < fuel) :
    (∃ v, minimax fuel flag s = some (v, s))
      ∧ ∃ r c, get_best_move fuel flag row col s = some (r, c, s) :=
  ⟨⟨_, minimax_eq fuel flag s hfuel⟩,
   ⟨_, _, get_best_move_eq fuel flag row col s (le_of_lt hfuel)⟩⟩

/-- C7, on the empty board with fuel 10. -/
theorem search_restores_state_witness :
    count_empty new < 10 ∧ (∃ v, minimax 10 false new = some (v, new))
      ∧ ∃ r c, get_best_move 10 false 0 0 new = some (r, c, new) :=
  ⟨by decide, search_restores_state new false 0 0 10 (by decide)⟩

/-- C8: `is_valid_move(row, col)` is true exactly when `row < 3`, `col < 3` and
the cell at `(row, col)` is empty; outside the grid it is false on every board,
the cell read being guarded by both bounds tests. -/
theorem is_valid_move_iff (s : TicTacToe) (row col : Nat) :
    (is_valid_move s row col = true ↔
      ∃ (hr : row < 3) (hc : col < 3), s.m_board.get ⟨row, hr⟩ ⟨col, hc⟩ = EMPTY_CELL)
    ∧ ((3 ≤ row ∨ 3 ≤ col) → ∀ s' : TicTacToe, is_valid_move s' row col = false) := by
  constructor
  · unfold is_valid_move
    by_cases hr : row < 3
    · by_cases hc : col < 3
      · simp [hr, hc]
      · simp [hr, hc]
    · simp [hr]
  · intro h s'
    unfold is_valid_move
    by_cases hr : row < 3
    · have hc : ¬ col < 3 := by omega
      simp [hr, hc]
    · simp [hr]

/-- C8, at the largest `size_t` row on the empty board: the move is rejected. -/
theorem is_valid_move_iff_witness :
    (3 ≤ 18446744073709551615 ∨ 3 ≤ 0) ∧ is_valid_move new 18446744073709551615 0 = false :=
  ⟨by decide, (is_valid_move_iff new 18446744073709551615 0).2 (by decide) new⟩

/-- C9: inside the grid `make_move(row, col)` writes X when `m_x_turn` was true
and O otherwise into the cell, negates `m_x_turn`, and leaves the other eight
cells as they were. -/
theorem make_move_spec (s : TicTacToe) (row col : Nat) (hr : row < 3) (hc : col < 3) :
    ∃ s', make_move s row col = some s'
      ∧ s'.m_board.get ⟨row, hr⟩ ⟨col, hc⟩ = (if s.m_x_turn then X_CHAR else O_CHAR)
      ∧ s'.m_x_turn = (!s.m_x_turn)
      ∧ ∀ r c : Fin 3, ¬ (r = ⟨row, hr⟩ ∧ c = ⟨col, hc⟩) →
          s'.m_board.get r c = s.m_board.get r c := by
  refine ⟨⟨!s.m_x_turn,
    s.m_board.set ⟨row, hr⟩ ⟨col, hc⟩ (if s.m_x_turn then X_CHAR else O_CHAR)⟩, ?_, ?_, rfl, ?_⟩
  · simp [make_move, hr, hc]
  · simp [Board.board_get_set]
  · intro r c hne
    have hne' : ¬ ((⟨row, hr⟩ : Fin 3) = r ∧ (⟨col, hc⟩ : Fin 3) = c) :=
      fun h => hne ⟨h.1.symm, h.2.symm⟩
    simp only [Board.board_get_set, hne', if_false]

/-- C9, on the empty board with X to move at `(1, 2)`. -/
theorem make_move_spec_witness :
    ∃ s', make_move new 1 2 = some s'
      ∧ s'.m_board.get 1 2 = X_CHAR ∧ s'.m_x_turn = false
      ∧ ∀ r c : Fin 3, ¬ (r = 1 ∧ c = 2) → s'.m_board.get r c = new.m_board.get r c :=
  make_move_spec new 1 2 (by decide) (by decide)

/-- C10: on the board with rows `X X -`, `O O -`, `- - -`, `get_best_move` for
X returns `(row, col) = (0, 2)`, the cell that completes row 0, whatever the
output variables held before the call. -/
theorem get_best_move_takes_win (row col fuel : Nat) (hfuel : 5 ≤ fuel) :
    get_best_move fuel true row col board_take_win = some (0, 2, board_take_win) := by
  obtain ⟨p, hres, hp, hbest, hfirst⟩ := get_best_move_spec fuel true row col board_take_win
    (by simpa [show count_empty board_take_win = 5 from by decide] using hfuel)
    ⟨(0, 2), by decide⟩
  have hwin : game_value (!true) (board_take_win.set_cell (0, 2).1 (0, 2).2 (mark_of true))
      = 1 := by
    rw [game_value_terminal _ _ (by decide)]
    decide
  have h1 := hbest (0, 2) (by decide)
  simp only [if_true] at h1 hwin
  have h2 := game_value_le (!true) (board_take_win.set_cell p.1 p.2 (mark_of true))
  have hfree : ∀ q : Fin 3 × Fin 3, board_take_win.at_pos q = EMPTY_CELL →
      ¬ scan_lt q (0, 2) := by decide
  have hp02 : p = (0, 2) := by
    rcases hfirst (0, 2) (by decide) (by simp only; omega) with h | h
    · exact h.symm
    · exact absurd h (hfree p hp)
  rw [hres, hp02]
  rfl

/-- C10, with fuel 9 and both output variables at the largest `size_t`. -/
theorem get_best_move_takes_win_witness :
    get_best_move 9 true 18446744073709551615 18446744073709551615 board_take_win
      = some (0, 2, board_take_win) :=
  get_best_move_takes_win 18446744073709551615 18446744073709551615 9 (by decide)

/-- C11: on the board with rows `O O -`, `X X -`, `- - -`, `get_best_move` for
X returns `(row, col) = (0, 2)`, the cell that blocks row 0 of O, whatever the
output variables held before the call. -/
theorem get_best_move_blocks (row col fuel : Nat) (hfuel : 5 ≤ fuel) :
    get_best_move fuel true row col board_block = some (0, 2, board_block) := by
  have hv := game_value_of_forced_win _ board_block_forced_win
  have h := get_best_move_x_first_cell fuel row col board_block (0, 2)
    (by simpa [show count_empty board_block = 5 from by decide] using hfuel)
    (by decide) board_block_first
    (by
      intro q _
      have := game_value_le false (board_block.set_cell q.1 q.2 X_CHAR)
      simp only at hv ⊢
      omega)
  rw [h]
  rfl

/-- C11, with fuel 9 and both output variables at the largest `size_t`. -/
theorem get_best_move_blocks_witness :
    get_best_move 9 true 18446744073709551615 18446744073709551615 board_block
      = some (0, 2, board_block) :=
  get_best_move_blocks 18446744073709551615 18446744073709551615 9 (by decide)

/-- C12: for every state and every `(row, col)` accepted by `is_valid_move`,
`make_move(row, col)` followed by its undo (cell back to `EMPTY_CELL`, turn
indicator negated again) gives back the original state: the same nine cells and
the same `m_x_turn`. -/
theorem make_move_undo (s : TicTacToe) (row col : Nat)
    (h : is_valid_move s row col = true) :
    ∃ s1, make_move s row col = some s1 ∧ undo_move s1 row col = some s := by
  unfold is_valid_move at h
  by_cases hr : row < 3
  · by_cases hc : col < 3
    · simp only [hr, hc, dite_true, decide_eq_true_eq] at h
      refine ⟨⟨!s.m_x_turn,
        s.m_board.set ⟨row, hr⟩ ⟨col, hc⟩ (if s.m_x_turn then X_CHAR else O_CHAR)⟩,
        by simp only [make_move, hr, hc, dite_true], ?_⟩
      simp only [undo_move, hr, hc, dite_true, Bool.not_not, Board.board_set_set]
      rw [← h, Board.board_set_get]
    · simp [hr, hc] at h
  · simp [hr] at h

/-- C12, on the empty board at `(2, 1)`. -/
theorem make_move_undo_witness :
    is_valid_move new 2 1 = true
      ∧ ∃ s1, make_move new 2 1 = some s1 ∧ undo_move s1 2 1 = some new :=
  ⟨by decide, make_move_undo new 2 1 (by decide)⟩

/-- C13: in every state reachable from the constructor's state by `make_move`
calls on accepted coordinates, the number of X cells equals the number of O
cells when `m_x_turn` is true and exceeds it by one when it is false, so the
counts differ by at most one; and of two consecutive accepted moves the first
writes the mark of `m_x_turn` and the second the mark of the other side. -/
theorem reachable_counts (s : TicTacToe) (h : Reachable s) :
    count_mark s X_CHAR = count_mark s O_CHAR + (if s.m_x_turn then 0 else 1)
      ∧ count_mark s O_CHAR ≤ count_mark s X_CHAR
      ∧ count_mark s X_CHAR ≤ count_mark s O_CHAR + 1
      ∧ ∀ (row col row' col' : Nat) (s1 s2 : TicTacToe),
          is_valid_move s row col = true → make_move s row col = some s1 →
          is_valid_move s1 row' col' = true → make_move s1 row' col' = some s2 →
          ∃ p q : Fin 3 × Fin 3, row = p.1.val ∧ col = p.2.val
            ∧ row' = q.1.val ∧ col' = q.2.val
            ∧ s1.at_pos p = mark_of s.m_x_turn ∧ s2.at_pos q = mark_of (!s.m_x_turn) := by
  have hcount : count_mark s X_CHAR
      = count_mark s O_CHAR + (if s.m_x_turn then 0 else 1) := by
    induction h with
    | start => decide
    | move s0 s1 row col _ hv hm ih =>
      obtain ⟨p, rfl, rfl, hp⟩ := is_valid_move_fin s0 row col hv
      rw [make_move_fin] at hm
      have hs1 : s1 = ⟨!s0.m_x_turn, (s0.set_cell p.1 p.2 (mark_of s0.m_x_turn)).m_board⟩ :=
        (Option.some.inj hm).symm
      have hX : count_mark s1 X_CHAR
          = (s0.set_cell p.1 p.2 (mark_of s0.m_x_turn)).count_mark X_CHAR := by
        rw [hs1]; rfl
      have hO : count_mark s1 O_CHAR
          = (s0.set_cell p.1 p.2 (mark_of s0.m_x_turn)).count_mark O_CHAR := by
        rw [hs1]; rfl
      have ht : s1.m_x_turn = !s0.m_x_turn := by rw [hs1]
      rw [hX, hO, ht, count_mark_set_cell s0 p _ X_CHAR hp (by simp),
        count_mark_set_cell s0 p _ O_CHAR hp (by simp)]
      cases hturn : s0.m_x_turn <;> simp [hturn, mark_of] at ih ⊢ <;> omega
  refine ⟨hcount, ?_, ?_, ?_⟩
  · split at hcount <;> omega
  · split at hcount <;> omega
  · intro row col row' col' s1 s2 hv hm hv' hm'
    obtain ⟨p, rfl, rfl, _⟩ := is_valid_move_fin s row col hv
    obtain ⟨q, rfl, rfl, _⟩ := is_valid_move_fin s1 row' col' hv'
    rw [make_move_fin] at hm hm'
    have hs1 := (Option.some.inj hm).symm
    have hs2 := (Option.some.inj hm').symm
    refine ⟨p, q, rfl, rfl, rfl, rfl, ?_, ?_⟩
    · rw [hs1]
      show (s.set_cell p.1 p.2 (mark_of s.m_x_turn)).at_pos p = _
      rw [at_pos_set_cell, if_pos rfl]
    · rw [hs2]
      show (s1.set_cell q.1 q.2 (mark_of s1.m_x_turn)).at_pos q = _
      rw [at_pos_set_cell, if_pos rfl, hs1]

/-- C13, at the state after X has moved to `(1, 1)` on the empty board. -/
theorem reachable_counts_witness :
    count_mark ⟨false, ⟨⟨EMPTY_CELL, EMPTY_CELL, EMPTY_CELL⟩,
        ⟨EMPTY_CELL, X_CHAR, EMPTY_CELL⟩, ⟨EMPTY_CELL, EMPTY_CELL, EMPTY_CELL⟩⟩⟩ X_CHAR
      = count_mark ⟨false, ⟨⟨EMPTY_CELL, EMPTY_CELL, EMPTY_CELL⟩,
        ⟨EMPTY_CELL, X_CHAR, EMPTY_CELL⟩, ⟨EMPTY_CELL, EMPTY_CELL, EMPTY_CELL⟩⟩⟩ O_CHAR
        + (if false then 0 else 1) :=
  (reachable_counts _
    (Reachable.move new _ 1 1 Reachable.start (by decide) (by decide))).1

/-- C14: a state reachable from the empty board by moves on accepted cells made
while `get_state` is `PLAYING` never holds both a line filled with X and a line
filled with O, and on it `get_state` gives the same result whatever the order
of the eight line checks. -/
theorem game_reach_order_independent (s : TicTacToe) (h : GameReach s) :
    ¬ ((∃ l ∈ lines, s.line_filled l X_CHAR) ∧ (∃ l ∈ lines, s.line_filled l O_CHAR))
      ∧ ∀ ls : List ((Fin 3 × Fin 3) × (Fin 3 × Fin 3) × (Fin 3 × Fin 3)),
          ls.Perm lines → get_state_in_order ls s = get_state s :=
  ⟨game_reach_one_winner s h,
   fun ls hperm => get_state_in_order_perm s ls hperm (game_reach_one_winner s h)⟩

/-- C14, at the board with rows `X O -`, `O X -`, `- - -`, with the checks made
in the reverse order. -/
theorem game_reach_order_independent_witness :
    get_state_in_order lines.reverse board_slow_win = get_state board_slow_win :=
  (game_reach_order_independent board_slow_win board_slow_win_reach).2 lines.reverse
    (List.reverse_perm lines)

/-- C15: `minimax` and `get_best_move` return on every board and for either
flag.  Fuel one above the number of empty cells is enough for `minimax` and
more fuel gives the same result; the number of empty cells is at most 9, so fuel
10 and 9 always do; and the board of each recursive call has exactly one empty
cell fewer. -/
theorem search_total (s : TicTacToe) (flag : Bool) (row col : Nat) :
    (minimax (count_empty s + 1) flag s).isSome = true
      ∧ (get_best_move (count_empty s) flag row col s).isSome = true
      ∧ (∀ fuel, count_empty s < fuel →
          minimax fuel flag s = minimax (count_empty s + 1) flag s)
      ∧ count_empty s ≤ 9
      ∧ (minimax 10 flag s).isSome = true
      ∧ (get_best_move 9 flag row col s).isSome = true
      ∧ ∀ p, s.at_pos p = EMPTY_CELL →
          count_empty (s.set_cell p.1 p.2 (if flag then X_CHAR else O_CHAR)) + 1
            = count_empty s := by
  have h9 := count_empty_le s
  refine ⟨?_, ?_, ?_, h9, ?_, ?_, ?_⟩
  · rw [minimax_eq _ flag s (Nat.lt_succ_self _)]
    rfl
  · rw [get_best_move_eq _ flag row col s (le_refl _)]
    rfl
  · intro fuel hfuel
    rw [minimax_eq fuel flag s hfuel, minimax_eq _ flag s (Nat.lt_succ_self _)]
  · rw [minimax_eq 10 flag s (by omega)]
    rfl
  · rw [get_best_move_eq 9 flag row col s h9]
    rfl
  · intro p hp
    exact count_empty_set_cell s p _ hp (by cases flag <;> simp)

/-- C16: `evaluate_board` returns 1 when `get_state` is `X_WINS`, -1 when it is
`O_WINS`, and 0 when it is `DRAW` or `PLAYING`. -/
theorem evaluate_board_spec (s : TicTacToe) :
    (get_state s = X_WINS → evaluate_board s = 1)
      ∧ (get_state s = O_WINS → evaluate_board s = -1)
      ∧ (get_state s = DRAW ∨ get_state s = PLAYING → evaluate_board s = 0) := by
  unfold evaluate_board
  refine ⟨?_, ?_, ?_⟩
  · intro h; rw [h]
  · intro h; rw [h]
  · rintro (h | h) <;> rw [h]

/-- C16, at the board of the winning-line scenario after X took `(0, 2)`, and at
the empty board. -/
theorem evaluate_board_spec_witness :
    evaluate_board (board_take_win.set_cell 0 2 X_CHAR) = 1 ∧ evaluate_board new = 0 :=
  ⟨(evaluate_board_spec _).1 (by decide), (evaluate_board_spec _).2.2 (Or.inr (by decide))⟩

/-- C17: in the loop of `play` started from the empty board, with the moves of
X chosen by `get_best_move` and the moves of O any entries accepted by
`is_valid_move`, the state at loop exit is `X_WINS` or `DRAW`, never `O_WINS`;
and a loop that ends does so within the 10 tests of its condition that 9 moves
allow. -/
theorem x_never_loses (inputs : List (Nat × Nat)) (n : Nat) (s' : TicTacToe)
    (h : play_loop n inputs new = some s') :
    (get_state s' = X_WINS ∨ get_state s' = DRAW) ∧ get_state s' ≠ O_WINS
      ∧ play_loop 10 inputs new = some s' := by
  have hval : 0 ≤ game_value new.m_x_turn new := by
    show 0 ≤ game_value true new
    rw [game_value_new]
  obtain ⟨hfin, hpay⟩ := play_loop_safe n inputs new s' hval h
  have hfuel := play_loop_fuel n 10 inputs new s' h (by decide)
  unfold evaluate_board at hpay
  cases hg : get_state s' with
  | PLAYING => exact absurd hg hfin
  | X_WINS => exact ⟨Or.inl rfl, by simp, hfuel⟩
  | O_WINS => rw [hg] at hpay; simp at hpay
  | DRAW => exact ⟨Or.inr rfl, by simp, hfuel⟩

/-- C17, at a game in which the human enters `(0, 0)` (rejected), `(1, 0)` and
`(1, 1)`: the loop ends with row 0 filled by X. -/
theorem x_never_loses_witness :
    (get_state ⟨false, ⟨⟨X_CHAR, X_CHAR, X_CHAR⟩, ⟨O_CHAR, O_CHAR, EMPTY_CELL⟩,
        ⟨EMPTY_CELL, EMPTY_CELL, EMPTY_CELL⟩⟩⟩ = X_WINS
      ∨ get_state ⟨false, ⟨⟨X_CHAR, X_CHAR, X_CHAR⟩, ⟨O_CHAR, O_CHAR, EMPTY_CELL⟩,
        ⟨EMPTY_CELL, EMPTY_CELL, EMPTY_CELL⟩⟩⟩ = DRAW)
      ∧ get_state ⟨false, ⟨⟨X_CHAR, X_CHAR, X_CHAR⟩, ⟨O_CHAR, O_CHAR, EMPTY_CELL⟩,
        ⟨EMPTY_CELL, EMPTY_CELL, EMPTY_CELL⟩⟩⟩ ≠ O_WINS
      ∧ play_loop 10 [(0, 0), (1, 0), (1, 1)] new
        = some ⟨false, ⟨⟨X_CHAR, X_CHAR, X_CHAR⟩, ⟨O_CHAR, O_CHAR, EMPTY_CELL⟩,
          ⟨EMPTY_CELL, EMPTY_CELL, EMPTY_CELL⟩⟩⟩ :=
  x_never_loses [(0, 0), (1, 0), (1, 1)] 10 _ play_loop_example

/-- C18: on every board and for either flag `minimax`, given more fuel than
there are empty cells, returns -1, 0 or 1, never a sentinel `INT_MIN` or
`INT_MAX`; and a board whose state is `PLAYING` has an empty cell. -/
theorem minimax_range (s : TicTacToe) (flag : Bool) (fuel : Nat)
    (hfuel : count_empty s < fuel) :
    (∃ v, minimax fuel flag s = some (v, s)
        ∧ (v = -1 ∨ v = 0 ∨ v = 1) ∧ v ≠ INT_MIN ∧ v ≠ INT_MAX)
      ∧ (get_state s = PLAYING → ∃ p, s.at_pos p = EMPTY_CELL) := by
  refine ⟨⟨_, minimax_eq fuel flag s hfuel, ?_, ?_, ?_⟩,
    fun h => ((get_state_playing_iff s).1 h).2⟩
  · have h1 := game_value_ge flag s
    have h2 := game_value_le flag s
    omega
  · have h1 := game_value_ge flag s
    simp only [INT_MIN]
    omega
  · have h2 := game_value_le flag s
    simp only [INT_MAX]
    omega

/-- C18, on the empty board with fuel 10. -/
theorem minimax_range_witness :
    count_empty new < 10
      ∧ (∃ v, minimax 10 true new = some (v, new)
        ∧ (v = -1 ∨ v = 0 ∨ v = 1) ∧ v ≠ INT_MIN ∧ v ≠ INT_MAX)
      ∧ (get_state new = PLAYING → ∃ p, new.at_pos p = EMPTY_CELL) :=
  ⟨by decide, minimax_range new true 10 (by decide)⟩

/-- C19: the board with rows `X O -`, `O X -`, `- - -` arises in a game with X
to move; X at `(2, 2)` wins at once, yet `get_best_move` for X returns `(0, 2)`,
after which the game is still in play. -/
theorem get_best_move_not_fastest :
    GameReach board_slow_win ∧ board_slow_win.m_x_turn = true
      ∧ is_valid_move board_slow_win 2 2 = true
      ∧ (∃ s1, make_move board_slow_win 2 2 = some s1 ∧ get_state s1 = X_WINS)
      ∧ (∀ row col : Nat,
          get_best_move 9 true row col board_slow_win = some (0, 2, board_slow_win))
      ∧ (∃ s2, make_move board_slow_win 0 2 = some s2 ∧ get_state s2 = PLAYING) := by
  refine ⟨board_slow_win_reach, rfl, by decide, ⟨_, rfl, by decide⟩, ?_, ⟨_, rfl, by decide⟩⟩
  intro row col
  have hv := game_value_of_forced_win _ board_slow_win_forced_win
  have h := get_best_move_x_first_cell 9 row col board_slow_win (0, 2)
    (by decide) (by decide) board_slow_win_first
    (by
      intro q _
      have := game_value_le false (board_slow_win.set_cell q.1 q.2 X_CHAR)
      simp only at hv ⊢
      omega)
  rw [h]
  rfl

/-- C20: when the board has a complete line, `get_state` returns the win of the
mark that fills the first complete line in the order of `lines` (rows 0 to 2,
columns 0 to 2, main diagonal, anti-diagonal), whatever the later lines hold. -/
theorem get_state_first_line (s : TicTacToe) :
    (∀ (l1 l2 : List ((Fin 3 × Fin 3) × (Fin 3 × Fin 3) × (Fin 3 × Fin 3)))
        (l : (Fin 3 × Fin 3) × (Fin 3 × Fin 3) × (Fin 3 × Fin 3)) (m : Cell),
        lines = l1 ++ l :: l2 → (m = X_CHAR ∨ m = O_CHAR) → s.line_filled l m →
        (∀ l' ∈ l1, ¬ s.line_complete l') → get_state s = win_of m)
      ∧ ((∃ l ∈ lines, s.line_complete l) →
          ∃ l1 l l2, lines = l1 ++ l :: l2 ∧ s.line_complete l
            ∧ ∀ l' ∈ l1, ¬ s.line_complete l') := by
  constructor
  · intro l1 l2 l m hsplit hm hf hbefore
    have hc : s.line_complete l := by
      rcases hm with rfl | rfl
      · exact Or.inl hf
      · exact Or.inr hf
    have hfind : first_complete_line s = some l := by
      unfold first_complete_line
      rw [List.find?_eq_some]
      refine ⟨by simpa using hc, l1, l2, hsplit, ?_⟩
      intro a ha
      simpa using hbefore a ha
    rw [get_state_eq, hfind]
    simp only
    rw [hf.1]
  · rintro ⟨l0, hl0, hc0⟩
    cases hfind : first_complete_line s with
    | none => exact absurd hc0 ((first_complete_line_none_iff s).1 hfind l0 hl0)
    | some l =>
      unfold first_complete_line at hfind
      rw [List.find?_eq_some] at hfind
      obtain ⟨hc, l1, l2, hsplit, hbefore⟩ := hfind
      refine ⟨l1, l, l2, hsplit, by simpa using hc, ?_⟩
      intro l' hl'
      simpa using hbefore l' hl'

/-- C20, at a malformed board: row 0 all O and row 1 all X gives `O_WINS`. -/
theorem get_state_first_line_witness :
    get_state ⟨true, ⟨⟨O_CHAR, O_CHAR, O_CHAR⟩, ⟨X_CHAR, X_CHAR, X_CHAR⟩,
        ⟨EMPTY_CELL, EMPTY_CELL, EMPTY_CELL⟩⟩⟩ = win_of O_CHAR :=
  (get_state_first_line _).1 [] _ ((0, 0), (0, 1), (0, 2)) O_CHAR rfl (Or.inr rfl)
    (by decide) (by simp)

end TicTacToe
